import Mathlib

/-!
# sha1-pow: incremental SHA-1 proof-of-work search

A shallow embedding of `src/sha1-pow.c`.

* Bytes and 32-bit words are natural numbers; every place where the C code
  truncates (`uint8_t`, `uint32_t`) carries an explicit `%`.
* `uint32_t hash[STATE_LEN]` is the five-field record `Hash`.
* Byte buffers (`block`, `suffix`, `prefix`) are lists of bytes; `memcpy`,
  `memset` and indexed stores are list operations.
* `sha1_compress` is declared `extern` in the source and linked from elsewhere:
  it is a parameter `compress` of everything that calls it.  Each call made
  through `call_compress` is recorded, in order, in the `calls` field of
  `Engine`, so that the number and the arguments of the calls can be stated.
-/

namespace Sha1Pow

set_option maxRecDepth 100000

/-! ## Constants -/

/-- The constant `#define ASCII_MIN 0x21`. -/
def ASCII_MIN : Nat := 0x21

/-- The constant `#define ASCII_MAX 0x7e`. -/
def ASCII_MAX : Nat := 0x7e

/-- The constant `#define BLOCK_LEN 64`, in bytes. -/
def BLOCK_LEN : Nat := 64

/-- The constant `#define STATE_LEN 5`, in words. -/
def STATE_LEN : Nat := 5

/-- The constant `#define SUFFIX_LEN 7`. -/
def SUFFIX_LEN : Nat := 7

/-- The constant `#define LENGTH_SIZE 8`, in bytes (inside `sha1_add_suffix`). -/
def LENGTH_SIZE : Nat := 8

/-! ## The digest state -/

/-- The array `uint32_t hash[STATE_LEN]`: five words, most significant first. -/
structure Hash where
  h0 : Nat
  h1 : Nat
  h2 : Nat
  h3 : Nat
  h4 : Nat
deriving DecidableEq, Repr

/-- The words `hash[0] .. hash[4]` in index order. -/
def Hash.words (h : Hash) : List Nat := [h.h0, h.h1, h.h2, h.h3, h.h4]

/-- Every word of the state fits in 32 bits. -/
def Hash.IsWord32 (h : Hash) : Prop :=
  h.h0 < 2 ^ 32 ∧ h.h1 < 2 ^ 32 ∧ h.h2 < 2 ^ 32 ∧ h.h3 < 2 ^ 32 ∧ h.h4 < 2 ^ 32

instance (h : Hash) : Decidable h.IsWord32 := by unfold Hash.IsWord32; infer_instance

/-- The type of the external primitive
`void sha1_compress(uint32_t state[5], const uint8_t block[64])`,
as a function from the old state and the block to the new state. -/
abbrev Compress := Hash → List Nat → Hash

/-- A digest state together with the record of the blocks handed to
`sha1_compress` so far, oldest first. -/
structure Engine where
  hash : Hash
  calls : List (List Nat)
deriving DecidableEq, Repr

/-- One call `sha1_compress(hash, block)`. -/
def call_compress (compress : Compress) (e : Engine) (block : List Nat) : Engine :=
  { hash := compress e.hash block, calls := e.calls ++ [block] }

/-! ## `sha1_first_block` (source lines 151-162) -/

/-- The values stored into `hash[0..4]` on lines 152-156. -/
def sha1_init : Hash :=
  { h0 := 0x67452301, h1 := 0xEFCDAB89, h2 := 0x98BADCFE, h3 := 0x10325476, h4 := 0xC3D2E1F0 }

/-- The loop `for (off = 0; len - off >= BLOCK_LEN; off += BLOCK_LEN)` of
lines 159-161.  The first argument bounds the number of iterations; `off`
never exceeds `len`, so the `size_t` subtraction does not wrap. -/
def sha1_first_block_loop (compress : Compress) (message : List Nat) (len : Nat) :
    Nat → Nat → Engine → Engine
  | 0, _, e => e
  | fuel + 1, off, e =>
    if len - off ≥ BLOCK_LEN then
      sha1_first_block_loop compress message len fuel (off + BLOCK_LEN)
        (call_compress compress e ((message.drop off).take BLOCK_LEN))
    else e

/-- The function `sha1_first_block(message, len, hash)`: the state is overwritten with the
initial constants, then every whole block of the message is compressed.  At
most `len / 64` iterations run, so `len / 64 + 1` suffices as bound. -/
def sha1_first_block (compress : Compress) (message : List Nat) (len : Nat) : Engine :=
  sha1_first_block_loop compress message len (len / BLOCK_LEN + 1) 0
    { hash := sha1_init, calls := [] }

/-! ## `sha1_add_suffix` (source lines 164-183) -/

/-- The call `memcpy(dst, src, n)` on byte lists: the first `n` bytes of `dst` are
replaced by the first `n` bytes of `src`. -/
def memcpy (dst src : List Nat) (n : Nat) : List Nat :=
  src.take n ++ dst.drop n

/-- The loop `for (int i = 1; i < LENGTH_SIZE; i++, len >>= 8)
block[BLOCK_LEN - 1 - i] = (uint8_t)(len & 0xFFU);` of lines 180-181. -/
def length_loop : Nat → Nat → Nat → List Nat → List Nat
  | 0, _, _, block => block
  | fuel + 1, i, len, block =>
    if i < LENGTH_SIZE then
      length_loop fuel (i + 1) (len >>> 8) (block.set (BLOCK_LEN - 1 - i) ((len &&& 0xFF) % 256))
    else block

/-- Lines 178-181: the length field is written into the last eight bytes of
the block. -/
def write_length (block : List Nat) (len : Nat) : List Nat :=
  let block := block.set (BLOCK_LEN - 1) (((len &&& 0x1F) <<< 3) % 256)
  let len := len >>> 5
  length_loop LENGTH_SIZE 1 len block

/-- The function `sha1_add_suffix(suffix, len, suffix_len, hash)`.  `len` is a `size_t`;
the C code is defined for `suffix_len ≤ 63` (the store `block[rem] = 0x80`
stays inside the block) and a `suffix` of at least `suffix_len` bytes. -/
def sha1_add_suffix (compress : Compress) (suffix : List Nat) (len suffix_len : Nat)
    (e : Engine) : Engine :=
  let block := List.replicate BLOCK_LEN 0
  let rem := suffix_len
  let block := memcpy block suffix rem
  let block := block.set rem 0x80
  let rem := rem + 1
  if BLOCK_LEN - rem < LENGTH_SIZE then
    let e := call_compress compress e block
    let block := List.replicate BLOCK_LEN 0
    call_compress compress e (write_length block len)
  else
    call_compress compress e (write_length block len)

/-! ## Whole-message SHA-1, as the standard states it -/

/-- The 64-bit big-endian encoding of `n`, most significant byte first. -/
def be64 (n : Nat) : List Nat :=
  [n / 2 ^ 56 % 256, n / 2 ^ 48 % 256, n / 2 ^ 40 % 256, n / 2 ^ 32 % 256,
   n / 2 ^ 24 % 256, n / 2 ^ 16 % 256, n / 2 ^ 8 % 256, n % 256]

/-- Standard Merkle-Damgard padding of a message: the marker byte `0x80`, the
least number of zero bytes that brings the total to a multiple of 64, and the
bit length of the message as a 64-bit big-endian integer. -/
def sha1_pad (msg : List Nat) : List Nat :=
  msg ++ [0x80] ++ List.replicate ((119 - msg.length % 64) % 64) 0 ++ be64 (8 * msg.length % 2 ^ 64)

/-- The first `n` consecutive 64-byte blocks of a byte string. -/
def blocks_of : Nat → List Nat → List (List Nat)
  | 0, _ => []
  | n + 1, m => m.take 64 :: blocks_of n (m.drop 64)

/-- Whole-message SHA-1 over a given compression primitive: the primitive is
folded from the standard initial constants over the blocks of the padded
message. -/
def sha1_whole (compress : Compress) (msg : List Nat) : Hash :=
  (blocks_of ((sha1_pad msg).length / 64) (sha1_pad msg)).foldl compress
    { h0 := 0x67452301, h1 := 0xEFCDAB89, h2 := 0x98BADCFE, h3 := 0x10325476, h4 := 0xC3D2E1F0 }

/-! ## The generator (source lines 48-58) -/

/-- The call `xorshift32(&state)` with `state->a = a`: the value returned, which is
also the value stored back into `state->a`.  Left shifts are truncated to 32
bits. -/
def xorshift32 (a : Nat) : Nat :=
  let x := a
  let x := x ^^^ ((x <<< 13) % 2 ^ 32)
  let x := x ^^^ (x >>> 17)
  let x := x ^^^ ((x <<< 5) % 2 ^ 32)
  x

/-- The local `uint8_t charset_size = ASCII_MAX - ASCII_MIN;` (line 100). -/
def charset_size : Nat := (ASCII_MAX - ASCII_MIN) % 256

/-- The byte stored by `suffix[..] = ASCII_MIN + xorshift32(&state) % charset_size`
(lines 102 and 115) when the generator returns `r`; the store into a
`uint8_t` truncates. -/
def suffix_byte (r : Nat) : Nat := (ASCII_MIN + r % charset_size) % 256

/-! ## Scoring (source lines 120-132) -/

/-- Scan of the top `k` bit positions of `x`, from position `k - 1` downwards:
the number of zero bits met before the first one bit. -/
def clz_scan : Nat → Nat → Nat
  | 0, _ => 0
  | k + 1, x => if x.testBit k then 0 else clz_scan k x + 1

/-- The compiler builtin `__builtin_clz` on a 32-bit `unsigned int`: the number
of leading zero bits, starting at the most significant bit position.  The C
result is undefined for `0`; the source never calls it there. -/
def clz32 (x : Nat) : Nat := clz_scan 32 x

/-- The body of `for (int i = 0; i < STATE_LEN; i++)` on lines 121-132, over
the words `hash[i]`, `hash[i+1]`, ... still to visit; `lz` and `chunk_lz` are
`uint8_t`. -/
def score_loop : List Nat → Nat → Nat
  | [], lz => lz
  | w :: ws, lz =>
    if w = 0 then score_loop ws ((lz + 8) % 256)
    else
      let bits := clz32 w
      let chunk_lz := bits / 4 % 256
      (lz + chunk_lz) % 256

/-- Lines 120-132: `lz = 0;` followed by the scoring loop. -/
def score (hash : Hash) : Nat := score_loop hash.words 0

/-! ## The search loop of `main` (source lines 85-146) -/

/-- The variables of `main` that live across iterations of the search loop.
`state` is `state.a` of the generator; `clocks` counts the calls of `clock()`
made so far and `reports` lists the throughput reports written to the
diagnostic stream, each as the pair `(counter, clock() - start_time)` it is
computed from. -/
structure Search where
  suffix : List Nat
  hash : Hash
  hash_fb : Hash
  state : Nat
  lz : Nat
  counter : Nat
  start_time : Int
  clocks : Nat
  reports : List (Nat × Int)
deriving DecidableEq, Repr

/-- The loop of lines 101-103 filling `suffix[0 .. SUFFIX_LEN - 1]`; returns
the buffer and the generator state. -/
def init_suffix (suffix : List Nat) (state : Nat) : List Nat × Nat :=
  (List.range SUFFIX_LEN).foldl
    (fun acc i =>
      let r := xorshift32 acc.2
      (acc.1.set i (suffix_byte r), r))
    (suffix, state)

/-- Lines 85-109, after a successful allocation: the zeroed buffer of
`SUFFIX_LEN + 1` bytes, the prefix-only state, the generator seeded with
`getpid()` converted to `uint32_t`, the initial suffix, `counter = 0` and
`start_time = clock()`.  `hash` and `lz` are uninitialised in the source:
their initial contents `hash0` and `lz0` are arbitrary.  The `n`-th call of
`clock()` returns `clock n`. -/
def search_init (compress : Compress) (clock : Nat → Int) (pfx : List Nat) (pid : Int)
    (hash0 : Hash) (lz0 : Nat) : Search :=
  let suffix := List.replicate (SUFFIX_LEN + 1) 0
  let hash_fb := (sha1_first_block compress pfx pfx.length).hash
  let state := (pid % 2 ^ 32).toNat
  let init := init_suffix suffix state
  { suffix := init.1, hash := hash0, hash_fb := hash_fb, state := init.2, lz := lz0,
    counter := 0, start_time := clock 0, clocks := 1, reports := [] }

/-- Lines 114-115: `rand = xorshift32(&state);`
`suffix[rand % SUFFIX_LEN] = ASCII_MIN + xorshift32(&state) % charset_size;`. -/
def mutate (s : Search) : Search :=
  let rand := xorshift32 s.state
  let r := xorshift32 rand
  { s with suffix := s.suffix.set (rand % SUFFIX_LEN) (suffix_byte r), state := r }

/-- Lines 112-132, one trial: `counter++` (a `uint32_t`), the mutation, the
copy `memcpy(hash, hash_fb, sizeof hash)`, the call
`sha1_add_suffix(suffix, prefix_len + SUFFIX_LEN, SUFFIX_LEN, hash)` and the
scoring loop. -/
def trial (compress : Compress) (prefix_len : Nat) (s : Search) : Search :=
  let s := { s with counter := (s.counter + 1) % 2 ^ 32 }
  let s := mutate s
  let s := { s with hash := s.hash_fb }
  let s := { s with hash :=
    (sha1_add_suffix compress s.suffix (prefix_len + SUFFIX_LEN) SUFFIX_LEN
      { hash := s.hash, calls := [] }).hash }
  { s with lz := score s.hash }

/-- The termination test `lz >= difficulty` of line 134; `difficulty` is a
`long`. -/
def found (difficulty : Int) (s : Search) : Bool := decide ((s.lz : Int) ≥ difficulty)

/-- Lines 141-145: every 10,000,000 trials a throughput report is written,
`counter` is reset and `start_time` re-read. -/
def report (clock : Nat → Int) (s : Search) : Search :=
  if s.counter % 10000000 = 0 then
    { s with
      reports := s.reports ++ [(s.counter, clock s.clocks - s.start_time)],
      counter := 0,
      start_time := clock (s.clocks + 1),
      clocks := s.clocks + 2 }
  else s

/-- The loop `while (1)` of lines 111-146, run for at most `fuel` trials:
`some s` is the state at the `break` of line 138, `none` means that no trial
among the first `fuel` passed the test. -/
def search_loop (compress : Compress) (clock : Nat → Int) (prefix_len : Nat) (difficulty : Int) :
    Nat → Search → Option Search
  | 0, _ => none
  | fuel + 1, s =>
    let s := trial compress prefix_len s
    if found difficulty s then some s
    else search_loop compress clock prefix_len difficulty fuel (report clock s)

/-- The state at the head of the loop after `n` unsuccessful trials. -/
def loop_head (compress : Compress) (clock : Nat → Int) (prefix_len : Nat) : Nat → Search → Search
  | 0, s => s
  | n + 1, s => report clock (trial compress prefix_len (loop_head compress clock prefix_len n s))

/-- Lines 85-146 for a validated prefix and difficulty, bounded to `fuel`
trials. -/
def search (compress : Compress) (clock : Nat → Int) (pfx : List Nat) (difficulty : Int)
    (pid : Int) (hash0 : Hash) (lz0 : Nat) (fuel : Nat) : Option Search :=
  search_loop compress clock pfx.length difficulty fuel
    (search_init compress clock pfx pid hash0 lz0)

/-- The bytes written by `printf("%s\n", suffix)` before the newline: the
buffer up to its first zero byte. -/
def printed_suffix (s : Search) : List Nat := s.suffix.takeWhile (fun b => b ≠ 0)

/-! ## Predicates on the suffix buffer -/

/-- A byte of the printable range `0x21 .. 0x7E`, both ends included. -/
def Printable (b : Nat) : Prop := 0x21 ≤ b ∧ b ≤ 0x7E

instance : DecidablePred Printable := fun b => by unfold Printable; infer_instance

/-- The shape of the suffix buffer that the search maintains: `SUFFIX_LEN + 1`
bytes, the first `SUFFIX_LEN` of them of the form `ASCII_MIN + k` with
`k < charset_size`, the last one zero. -/
def SuffixInv (suffix : List Nat) : Prop :=
  suffix.length = SUFFIX_LEN + 1 ∧ suffix.getD SUFFIX_LEN 1 = 0 ∧
    ∀ i, i < SUFFIX_LEN → ASCII_MIN ≤ suffix.getD i 0 ∧ suffix.getD i 0 < ASCII_MIN + charset_size

/-- The part of a search state that is observable on success: the printed
suffix, the suffix buffer, the digest and its score. -/
def Search.outcome (s : Search) : List Nat × List Nat × Hash × Nat :=
  (printed_suffix s, s.suffix, s.hash, s.lz)

/-! ## The digest as hexadecimal digits -/

/-- The eight hexadecimal digits of a 32-bit word as printed by `%08x`, most
significant first. -/
def hex8 (w : Nat) : List Nat :=
  [w / 16 ^ 7 % 16, w / 16 ^ 6 % 16, w / 16 ^ 5 % 16, w / 16 ^ 4 % 16,
   w / 16 ^ 3 % 16, w / 16 ^ 2 % 16, w / 16 % 16, w % 16]

/-- The forty hexadecimal digits of a digest, eight per word, as printed on
line 137. -/
def hex40 (h : Hash) : List Nat := h.words.flatMap hex8

/-- The number of consecutive zero nibbles at the most significant end of the
digest. -/
def leading_zero_nibbles (h : Hash) : Nat := ((hex40 h).takeWhile (fun d => d = 0)).length

/-! ## A concrete compression primitive

The standard SHA-1 compression function (FIPS 180-4, section 6.1.2), as a
sample of what the program is linked with.  The statements below hold for
every primitive; this one serves to evaluate them on concrete inputs. -/

/-- Rotate a 32-bit word left by `n` bits. -/
def rotl32 (x n : Nat) : Nat := ((x <<< n) ||| (x >>> (32 - n))) % 2 ^ 32

/-- The `i`-th big-endian 32-bit word of a block. -/
def be32_at (block : List Nat) (i : Nat) : Nat :=
  block.getD (4 * i) 0 * 2 ^ 24 + block.getD (4 * i + 1) 0 * 2 ^ 16
    + block.getD (4 * i + 2) 0 * 2 ^ 8 + block.getD (4 * i + 3) 0

/-- Message schedule extension, most recent word first: `n` more words
`W[t] = rotl1 (W[t-3] ^ W[t-8] ^ W[t-14] ^ W[t-16])`. -/
def sha1_schedule : Nat → List Nat → List Nat
  | 0, w => w
  | n + 1, w =>
    sha1_schedule n
      (rotl32 (w.getD 2 0 ^^^ w.getD 7 0 ^^^ w.getD 13 0 ^^^ w.getD 15 0) 1 :: w)

/-- Round `t` of the compression function on the working variables
`a, b, c, d, e` (held in `h0 .. h4`) with schedule word `w`. -/
def sha1_round (t : Nat) (s : Hash) (w : Nat) : Hash :=
  let f :=
    if t < 20 then (s.h1 &&& s.h2) ||| ((s.h1 ^^^ 0xFFFFFFFF) &&& s.h3)
    else if t < 40 then s.h1 ^^^ s.h2 ^^^ s.h3
    else if t < 60 then (s.h1 &&& s.h2) ||| (s.h1 &&& s.h3) ||| (s.h2 &&& s.h3)
    else s.h1 ^^^ s.h2 ^^^ s.h3
  let k :=
    if t < 20 then 0x5A827999 else if t < 40 then 0x6ED9EBA1
    else if t < 60 then 0x8F1BBCDC else 0xCA62C1D6
  { h0 := (rotl32 s.h0 5 + f + s.h4 + k + w) % 2 ^ 32, h1 := s.h0, h2 := rotl32 s.h1 30,
    h3 := s.h2, h4 := s.h3 }

/-- The rounds over the schedule words, starting at round `t`. -/
def sha1_rounds : List Nat → Nat → Hash → Hash
  | [], _, s => s
  | w :: ws, t, s => sha1_rounds ws (t + 1) (sha1_round t s w)

/-- The standard SHA-1 compression function. -/
def sha1_compress_std : Compress := fun h block =>
  let w := (sha1_schedule 64 ((List.range 16).map (be32_at block)).reverse).reverse
  let s := sha1_rounds w 0 h
  { h0 := (h.h0 + s.h0) % 2 ^ 32, h1 := (h.h1 + s.h1) % 2 ^ 32, h2 := (h.h2 + s.h2) % 2 ^ 32,
    h3 := (h.h3 + s.h3) % 2 ^ 32, h4 := (h.h4 + s.h4) % 2 ^ 32 }

/-! ## The length field read back -/

/-- A byte string read as a big-endian integer, most significant byte first. -/
def be_value (bytes : List Nat) : Nat := bytes.foldl (fun acc b => acc * 256 + b) 0

/-- The block handed to the most recent call of `sha1_compress`. -/
def Engine.terminal_block (e : Engine) : List Nat := e.calls.getLastD []

/-! ## Argument handling and `main` (source lines 60-149)

Strings (`argv[i]`) are the lists of their bytes before the terminating zero
byte, so `strlen` is the length of the list and a pointer into a string is
the remainder of the list from that position on; the byte such a pointer
refers to is the head of the remainder, or the terminator `0` when nothing
remains. -/

/-- A well-formed C string: every byte is a non-zero `char`. -/
def CString (s : List Nat) : Prop := ∀ b ∈ s, 0 < b ∧ b < 256

instance (s : List Nat) : Decidable (CString s) := by unfold CString; infer_instance

/-- The C library predicate `isspace` in the C locale: space, `\t`, `\n`,
`\v`, `\f`, `\r`. -/
def isspace (c : Nat) : Bool := c = 0x20 || (0x09 ≤ c && c ≤ 0x0D)

/-- The C library predicate `isdigit`. -/
def isdigit (c : Nat) : Bool := 0x30 ≤ c && c ≤ 0x39

/-- The largest value of a 64-bit `long`. -/
def LONG_MAX : Int := 2 ^ 63 - 1

/-- The least value of a 64-bit `long`. -/
def LONG_MIN : Int := -(2 ^ 63)

/-- The `errno` value for a result out of range. -/
def ERANGE : Nat := 34

/-- The `errno` value that an implementation may set when no conversion is
performed. -/
def EINVAL : Nat := 22

/-- The constant `EXIT_SUCCESS`. -/
def EXIT_SUCCESS : Nat := 0

/-- The constant `EXIT_FAILURE`. -/
def EXIT_FAILURE : Nat := 1

/-- What `strtol(nptr, &endptr, 10)` leaves behind when `errno` was 0 before
the call: the value returned, the string `endptr` points to, and `errno`. -/
structure Strtol where
  value : Int
  endptr : List Nat
  errno : Nat
deriving DecidableEq, Repr

/-- The value of a sequence of decimal digit characters. -/
def decimal_value (digits : List Nat) : Int :=
  digits.foldl (fun acc d => acc * 10 + ((d : Int) - 0x30)) 0

/-- The string left after an optional sign character `-` or `+`. -/
def skip_sign : List Nat → List Nat
  | [] => []
  | c :: t => if c = 0x2D ∨ c = 0x2B then t else c :: t

/-- The C library function `strtol` with base 10 (ISO C 7.22.1.4): white space
is skipped, then an optional sign and the longest run of decimal digits are
converted.  With no digit, no conversion is performed: the value is 0 and
`endptr` is `nptr`; ISO C leaves `errno` alone in that case (as glibc does),
POSIX allows an implementation to store `EINVAL`, which is the case
`einval = true`.  A value outside the range of `long` is clamped and `errno`
becomes `ERANGE`. -/
def strtol (einval : Bool) (nptr : List Nat) : Strtol :=
  let s := nptr.dropWhile isspace
  let neg := decide (s.head? = some 0x2D)
  let s := skip_sign s
  let digits := s.takeWhile isdigit
  if digits = [] then
    { value := 0, endptr := nptr, errno := if einval then EINVAL else 0 }
  else
    let v := if neg then -decimal_value digits else decimal_value digits
    if v > LONG_MAX then { value := LONG_MAX, endptr := s.dropWhile isdigit, errno := ERANGE }
    else if v < LONG_MIN then
      { value := LONG_MIN, endptr := s.dropWhile isdigit, errno := ERANGE }
    else { value := v, endptr := s.dropWhile isdigit, errno := 0 }

/-- A string that is a base-10 integer: optional white space, an optional
sign, at least one decimal digit and nothing after the digits, with a value
that fits a `long`. -/
def is_base10_integer (s : List Nat) : Bool :=
  let t := s.dropWhile isspace
  let digits := skip_sign t
  let v := if t.head? = some 0x2D then -decimal_value digits else decimal_value digits
  decide (digits ≠ []) && digits.all isdigit && decide (LONG_MIN ≤ v) && decide (v ≤ LONG_MAX)

/-- A message written to the diagnostic stream. -/
inductive Diag where
  /-- The text `Difficulty must be a number` of line 71. -/
  | difficulty_not_a_number
  /-- The text `Prefix length has to be 64 bytes` of line 78. -/
  | prefix_length
  /-- The text `Can't allocate memory` of line 87. -/
  | no_memory
  /-- A line `Hashrate: ... MH/s` of line 142, computed from `counter` and
  `clock() - start_time`. -/
  | hashrate (counter : Nat) (elapsed : Int)
  /-- The line `Full string: ` of line 136 with the bytes of prefix and suffix. -/
  | full_string (bytes : List Nat)
  /-- The line `Hash: ` of line 137 with the five digest words. -/
  | hash (h : Hash)
deriving DecidableEq, Repr

/-- What a run of the program leaves behind: the exit status, the bytes
written to standard output, the messages written to the diagnostic stream, and
the variables of the search loop at the `break`, or `none` when the program
exited before the search was set up (before line 85), with no trial made. -/
structure Outcome where
  status : Nat
  stdout : List Nat
  stderr : List Diag
  search : Option Search
deriving DecidableEq, Repr

/-- The bytes of `Usage: %s <PREFIX> <DIFFICULTY>\n` for a given `argv[0]`. -/
def usage (argv0 : List Nat) : List Nat :=
  [0x55, 0x73, 0x61, 0x67, 0x65, 0x3A, 0x20] ++ argv0 ++
    [0x20, 0x3C, 0x50, 0x52, 0x45, 0x46, 0x49, 0x58, 0x3E, 0x20, 0x3C, 0x44, 0x49, 0x46, 0x46,
     0x49, 0x43, 0x55, 0x4C, 0x54, 0x59, 0x3E, 0x0A]

/-- The function `main(argc, argv)` with `argc = argv.length`, the search
bounded to `fuel` trials (`none`: no trial among the first `fuel` passed the
test).  `einval` selects the behaviour of `strtol` when no conversion is
performed, `malloc_ok` tells whether `malloc` returns a buffer, `pid` is the
value of `getpid()`, `clock` gives the readings of `clock()`, and `hash0`,
`lz0` are the initial contents of the uninitialised `hash` and `lz`. -/
def main (compress : Compress) (clock : Nat → Int) (einval malloc_ok : Bool) (pid : Int)
    (hash0 : Hash) (lz0 : Nat) (argv : List (List Nat)) (fuel : Nat) : Option Outcome :=
  if argv.length ≠ 3 then
    some { status := EXIT_FAILURE, stdout := usage (argv.getD 0 []), stderr := [],
           search := none }
  else
    let r := strtol einval (argv.getD 2 [])
    let difficulty := r.value
    if r.errno ≠ 0 ∨ r.endptr.headD 0 ≠ 0 then
      some { status := EXIT_FAILURE, stdout := [], stderr := [Diag.difficulty_not_a_number],
             search := none }
    else
      let pfx := argv.getD 1 []
      let prefix_len := pfx.length
      if prefix_len ≠ 64 then
        some { status := EXIT_FAILURE, stdout := [], stderr := [Diag.prefix_length],
               search := none }
      else if malloc_ok = false then
        some { status := EXIT_FAILURE, stdout := [], stderr := [Diag.no_memory],
               search := none }
      else
        match search compress clock pfx difficulty pid hash0 lz0 fuel with
        | none => none
        | some s =>
          some { status := EXIT_SUCCESS,
                 stdout := printed_suffix s ++ [0x0A],
                 stderr := s.reports.map (fun r => Diag.hashrate r.1 r.2) ++
                   [Diag.full_string (pfx ++ printed_suffix s), Diag.hash s.hash],
                 search := some s }

/-! ## Sample inputs -/

/-- A sample prefix argument: 64 letters `a`. -/
def letters_a64 : List Nat := List.replicate 64 0x61

/-- A sample clock: the `n`-th call of `clock()` returns `100 * n`. -/
def sample_clock : Nat → Int := fun n => 100 * (n : Int)

/-- Another sample clock: every call of `clock()` returns 7. -/
def frozen_clock : Nat → Int := fun _ => 7

/-! ## Lemmas on `clz32` and on hexadecimal digits -/

/-- The scan of `k` bit positions counts at most `k` zero bits. -/
theorem clz_scan_le (k x : Nat) : clz_scan k x ≤ k := by
  induction k with
  | zero => simp [clz_scan]
  | succ k ih =>
    unfold clz_scan
    split <;> omega

/-- For `0 < x < 2 ^ k` the scan stops at the top set bit of `x`. -/
theorem clz_scan_bounds (k x : Nat) (h0 : x ≠ 0) (hx : x < 2 ^ k) :
    clz_scan k x < k ∧ 2 ^ (k - 1 - clz_scan k x) ≤ x ∧ x < 2 ^ (k - clz_scan k x) := by
  induction k with
  | zero => simp at hx; omega
  | succ k ih =>
    unfold clz_scan
    by_cases hb : x.testBit k = true
    · simp only [hb, if_true]
      refine ⟨by omega, ?_, by simpa using hx⟩
      simpa using Nat.testBit_implies_ge hb
    · have hlt : x < 2 ^ k := by
        by_contra hge
        push_neg at hge
        apply hb
        rw [Nat.testBit_to_div_mod]
        have h1 : x / 2 ^ k < 2 := by
          apply Nat.div_lt_of_lt_mul
          rw [pow_succ] at hx; omega
        have h2 : 0 < x / 2 ^ k := Nat.div_pos hge (by positivity)
        have : x / 2 ^ k = 1 := by omega
        simp [this]
      obtain ⟨a, b, c⟩ := ih hlt
      simp only [hb]
      refine ⟨by simp; omega, ?_, ?_⟩
      · have : k + 1 - 1 - (clz_scan k x + 1) = k - 1 - clz_scan k x := by omega
        rw [if_neg (by simp), this]; exact b
      · have : k + 1 - (clz_scan k x + 1) = k - clz_scan k x := by omega
        rw [if_neg (by simp), this]; exact c

/-- The count of leading zero bits is at most 32, for every argument. -/
theorem clz32_le (x : Nat) : clz32 x ≤ 32 := clz_scan_le 32 x

/-- A non-zero 32-bit word with `j = clz32 w / 4` lies in `[16^(7-j), 16^(8-j))`. -/
theorem clz32_nibbles (w : Nat) (h0 : w ≠ 0) (hw : w < 2 ^ 32) :
    clz32 w / 4 < 8 ∧ 16 ^ (7 - clz32 w / 4) ≤ w ∧ w < 16 ^ (8 - clz32 w / 4) := by
  obtain ⟨a, b, c⟩ := clz_scan_bounds 32 w h0 hw
  change clz32 w < 32 at a
  change 2 ^ (32 - 1 - clz32 w) ≤ w at b
  change w < 2 ^ (32 - clz32 w) at c
  generalize clz32 w = n at a b c
  interval_cases n <;> simp at b c ⊢ <;> omega

/-- The digits of `hex8` with the powers of 16 evaluated. -/
theorem hex8_eq (w : Nat) : hex8 w =
    [w / 268435456 % 16, w / 16777216 % 16, w / 1048576 % 16, w / 65536 % 16,
     w / 4096 % 16, w / 256 % 16, w / 16 % 16, w % 16] := by
  norm_num [hex8]

/-- Eight digits of which the first `j` are zero and the next is not start with
exactly `j` zeros, whatever follows them. -/
theorem lzc_digits (d7 d6 d5 d4 d3 d2 d1 d0 j : Nat) (rest : List Nat)
    (h7 : 0 < j → d7 = 0) (h6 : 1 < j → d6 = 0) (h5 : 2 < j → d5 = 0) (h4 : 3 < j → d4 = 0)
    (h3 : 4 < j → d3 = 0) (h2 : 5 < j → d2 = 0) (h1 : 6 < j → d1 = 0)
    (n7 : j = 0 → d7 ≠ 0) (n6 : j = 1 → d6 ≠ 0) (n5 : j = 2 → d5 ≠ 0) (n4 : j = 3 → d4 ≠ 0)
    (n3 : j = 4 → d3 ≠ 0) (n2 : j = 5 → d2 ≠ 0) (n1 : j = 6 → d1 ≠ 0) (n0 : j = 7 → d0 ≠ 0)
    (hj : j < 8) :
    (([d7, d6, d5, d4, d3, d2, d1, d0] ++ rest).takeWhile (fun d => decide (d = 0))).length = j := by
  interval_cases j <;> simp_all [List.takeWhile_cons]

/-- A word in `[16^(7-j), 16^(8-j))` has exactly `j` leading zero digits. -/
theorem hex8_takeWhile_nonzero (w j : Nat) (rest : List Nat) (hj : j < 8)
    (hlo : 16 ^ (7 - j) ≤ w) (hhi : w < 16 ^ (8 - j)) :
    ((hex8 w ++ rest).takeWhile (fun d => decide (d = 0))).length = j := by
  rw [hex8_eq]
  apply lzc_digits <;> first | exact hj | (intro hh; interval_cases j <;> norm_num at hlo hhi hh ⊢ <;> omega)

/-- A zero word contributes eight zero digits and the count goes on. -/
theorem takeWhile_zero_word (rest : List Nat) :
    ((hex8 0 ++ rest).takeWhile (fun d => decide (d = 0))).length
      = 8 + (rest.takeWhile (fun d => decide (d = 0))).length := by
  rw [hex8_eq]
  simp [List.takeWhile_cons]
  omega

/-- The scoring loop adds to `lz` the number of leading zero digits of the
words still to visit, as long as the `uint8_t` cannot wrap. -/
theorem score_loop_eq (ws : List Nat) :
    ∀ lz, (∀ w ∈ ws, w < 2 ^ 32) → lz + 8 * ws.length < 256 →
      score_loop ws lz = lz + ((ws.flatMap hex8).takeWhile (fun d => decide (d = 0))).length := by
  induction ws with
  | nil => intro lz _ _; simp [score_loop]
  | cons w ws ih =>
    intro lz hw hlz
    simp only [List.length_cons] at hlz
    have hw32 : w < 2 ^ 32 := hw w (by simp)
    rw [score_loop, List.flatMap_cons]
    by_cases h0 : w = 0
    · subst h0
      rw [if_pos rfl, ih _ (fun v hv => hw v (by simp [hv])) (by omega), takeWhile_zero_word]
      omega
    · obtain ⟨a, b, c⟩ := clz32_nibbles w h0 hw32
      rw [if_neg h0, hex8_takeWhile_nonzero w (clz32 w / 4) _ a b c]
      simp only
      omega

/-- The score of a digest of 32-bit words is its number of leading zero nibbles. -/
theorem score_eq_nibbles (h : Hash) (hw : h.IsWord32) : score h = leading_zero_nibbles h := by
  obtain ⟨a, b, c, d, e⟩ := hw
  have := score_loop_eq h.words 0 (by simp [Hash.words]; omega) (by simp [Hash.words])
  simpa [score, leading_zero_nibbles, hex40] using this

/-! ## The invariant of the suffix buffer -/

/-- Every stored suffix byte lies in `0x21 .. 0x7D`. -/
theorem suffix_byte_bounds (r : Nat) : 0x21 ≤ suffix_byte r ∧ suffix_byte r ≤ 0x7D := by
  have h : r % 93 < 93 := Nat.mod_lt _ (by decide)
  simp only [suffix_byte, charset_size, ASCII_MIN, ASCII_MAX]
  norm_num
  omega

/-- A buffer satisfying the invariant, spelled out. -/
theorem suffixInv_cases (l : List Nat) (h : SuffixInv l) :
    ∃ a b c d e f g, l = [a, b, c, d, e, f, g, 0] ∧
      (∀ x ∈ [a, b, c, d, e, f, g], 0x21 ≤ x ∧ x ≤ 0x7D) := by
  obtain ⟨hlen, hz, hr⟩ := h
  match l, hlen with
  | [a, b, c, d, e, f, g, z], _ =>
    simp [SUFFIX_LEN] at hz
    subst hz
    refine ⟨a, b, c, d, e, f, g, rfl, ?_⟩
    have h0 := hr 0 (by decide)
    have h1 := hr 1 (by decide)
    have h2 := hr 2 (by decide)
    have h3 := hr 3 (by decide)
    have h4 := hr 4 (by decide)
    have h5 := hr 5 (by decide)
    have h6 := hr 6 (by decide)
    simp [ASCII_MIN, charset_size, ASCII_MAX] at h0 h1 h2 h3 h4 h5 h6
    simp
    omega

/-- Seven bytes in range followed by a zero satisfy the invariant. -/
theorem suffixInv_of (a b c d e f g : Nat)
    (h : ∀ x ∈ [a, b, c, d, e, f, g], 0x21 ≤ x ∧ x ≤ 0x7D) :
    SuffixInv [a, b, c, d, e, f, g, 0] := by
  refine ⟨rfl, rfl, ?_⟩
  intro i hi
  simp [SUFFIX_LEN] at hi
  simp at h
  simp only [ASCII_MIN, charset_size, ASCII_MAX]
  interval_cases i <;> simp <;> omega

/-- A store of a generated byte at an index below 7 keeps the invariant. -/
theorem suffixInv_set (l : List Nat) (h : SuffixInv l) (i r : Nat) (hi : i < 7) :
    SuffixInv (l.set i (suffix_byte r)) := by
  obtain ⟨a, b, c, d, e, f, g, rfl, hr⟩ := suffixInv_cases l h
  have hb := suffix_byte_bounds r
  simp at hr
  interval_cases i <;> simp only [List.set] <;> apply suffixInv_of <;> simp <;> omega

/-- The initialisation loop unrolled on the zeroed buffer. -/
theorem init_suffix_eq (st : Nat) :
    init_suffix (List.replicate (SUFFIX_LEN + 1) 0) st =
      ([suffix_byte (xorshift32 st),
        suffix_byte (xorshift32 (xorshift32 st)),
        suffix_byte (xorshift32 (xorshift32 (xorshift32 st))),
        suffix_byte (xorshift32 (xorshift32 (xorshift32 (xorshift32 st)))),
        suffix_byte (xorshift32 (xorshift32 (xorshift32 (xorshift32 (xorshift32 st))))),
        suffix_byte (xorshift32 (xorshift32 (xorshift32 (xorshift32 (xorshift32 (xorshift32 st)))))),
        suffix_byte (xorshift32 (xorshift32 (xorshift32 (xorshift32 (xorshift32 (xorshift32
          (xorshift32 st))))))), 0],
       xorshift32 (xorshift32 (xorshift32 (xorshift32 (xorshift32 (xorshift32 (xorshift32 st))))))) := by
  rfl

/-- The initialised buffer satisfies the invariant. -/
theorem init_suffixInv (st : Nat) :
    SuffixInv (init_suffix (List.replicate (SUFFIX_LEN + 1) 0) st).1 := by
  rw [init_suffix_eq]
  apply suffixInv_of
  intro x hx
  simp at hx
  rcases hx with h | h | h | h | h | h | h <;> subst h <;> exact suffix_byte_bounds _

/-- The initial search state satisfies the invariant. -/
theorem search_init_inv (compress : Compress) (clock : Nat → Int) (pfx : List Nat) (pid : Int)
    (hash0 : Hash) (lz0 : Nat) : SuffixInv (search_init compress clock pfx pid hash0 lz0).suffix :=
  init_suffixInv _

/-- The mutation step keeps the invariant. -/
theorem mutate_inv (s : Search) (h : SuffixInv s.suffix) : SuffixInv (mutate s).suffix := by
  apply suffixInv_set _ h
  exact Nat.mod_lt _ (by decide)

/-! ## Frame lemmas for one trial and for the report -/

/-- After the mutation a trial leaves the suffix alone. -/
theorem trial_suffix (compress : Compress) (n : Nat) (s : Search) :
    (trial compress n s).suffix = (mutate s).suffix := rfl

/-- A trial does not write `hash_fb`. -/
theorem trial_hash_fb (compress : Compress) (n : Nat) (s : Search) :
    (trial compress n s).hash_fb = s.hash_fb := rfl

/-- The digest of a trial is `sha1_add_suffix` on a copy of `hash_fb`. -/
theorem trial_hash (compress : Compress) (n : Nat) (s : Search) :
    (trial compress n s).hash =
      (sha1_add_suffix compress (trial compress n s).suffix (n + SUFFIX_LEN) SUFFIX_LEN
        { hash := s.hash_fb, calls := [] }).hash := rfl

/-- The `lz` of a trial is the score of its digest. -/
theorem trial_lz (compress : Compress) (n : Nat) (s : Search) :
    (trial compress n s).lz = score (trial compress n s).hash := rfl

/-- The report does not write the suffix. -/
theorem report_suffix (clock : Nat → Int) (s : Search) : (report clock s).suffix = s.suffix := by
  unfold report; split <;> rfl

/-- The report does not write `hash_fb`. -/
theorem report_hash_fb (clock : Nat → Int) (s : Search) : (report clock s).hash_fb = s.hash_fb := by
  unfold report; split <;> rfl

/-- The report does not touch the generator. -/
theorem report_state (clock : Nat → Int) (s : Search) : (report clock s).state = s.state := by
  unfold report; split <;> rfl

/-- The invariant holds at the head of every iteration. -/
theorem loop_head_inv (compress : Compress) (clock : Nat → Int) (len : Nat) (s : Search)
    (h : SuffixInv s.suffix) (n : Nat) :
    SuffixInv (loop_head compress clock len n s).suffix := by
  induction n with
  | zero => exact h
  | succ n ih =>
    rw [loop_head, report_suffix, trial_suffix]
    exact mutate_inv _ ih

/-- The prefix-only state is the same at the head of every iteration. -/
theorem loop_head_hash_fb (compress : Compress) (clock : Nat → Int) (len : Nat) (s : Search)
    (n : Nat) : (loop_head compress clock len n s).hash_fb = s.hash_fb := by
  induction n with
  | zero => rfl
  | succ n ih => rw [loop_head, report_hash_fb, trial_hash_fb, ih]

/-- The head state after `n + 1` trials, unfolded at the first trial. -/
theorem loop_head_succ (compress : Compress) (clock : Nat → Int) (len : Nat) (n : Nat) :
    ∀ s, loop_head compress clock len (n + 1) s
      = loop_head compress clock len n (report clock (trial compress len s)) := by
  induction n with
  | zero => intro s; rfl
  | succ n ih => intro s; rw [loop_head, ih s]; rfl

/-- A result of the bounded loop is the state after the trial of some
iteration below the bound, and it passes the termination test. -/
theorem search_loop_some (compress : Compress) (clock : Nat → Int) (len : Nat) (difficulty : Int)
    (fuel : Nat) : ∀ (s r : Search), search_loop compress clock len difficulty fuel s = some r →
      ∃ n, n < fuel ∧ r = trial compress len (loop_head compress clock len n s) ∧
        found difficulty r = true := by
  induction fuel with
  | zero => intro s r h; simp [search_loop] at h
  | succ fuel ih =>
    intro s r h
    rw [search_loop] at h
    by_cases hf : found difficulty (trial compress len s) = true
    · simp only [hf, if_true] at h
      cases h
      exact ⟨0, by omega, rfl, hf⟩
    · simp only [hf] at h
      obtain ⟨n, hn, hr, hfr⟩ := ih _ _ h
      exact ⟨n + 1, by omega, by rw [loop_head_succ]; exact hr, hfr⟩

/-! ## The two phases on a 64-byte prefix and a 7-byte suffix -/

/-- On a 64-byte message the loop of `sha1_first_block` runs once. -/
theorem first_block_64 (compress : Compress) (p : List Nat) (hp : p.length = 64) :
    sha1_first_block compress p 64 = { hash := compress sha1_init p, calls := [p] } := by
  have h : List.take 64 p = p := List.take_of_length_le (by omega)
  simp [sha1_first_block, sha1_first_block_loop, call_compress, BLOCK_LEN, h]

/-- With `len = 71` and `suffix_len = 7` one block is compressed: the suffix,
the marker, 48 zero bytes and the length field 568. -/
theorem add_suffix_7 (compress : Compress) (s : List Nat) (hs : s.length = 7) (e : Engine) :
    sha1_add_suffix compress s 71 7 e =
      call_compress compress e (s ++ [0x80] ++ List.replicate 48 0 ++ be64 568) := by
  match s, hs with
  | [a, b, c, d, e1, f, g], _ =>
    simp [sha1_add_suffix, memcpy, write_length, length_loop, BLOCK_LEN, LENGTH_SIZE, be64,
      List.replicate]
    rfl

/-- The standard padding of a 71-byte message. -/
theorem pad_71 (p s : List Nat) (hp : p.length = 64) (hs : s.length = 7) :
    sha1_pad (p ++ s) = p ++ (s ++ [0x80] ++ List.replicate 48 0 ++ be64 568) := by
  simp [sha1_pad, hp, hs]

/-- Whole-message SHA-1 of a 71-byte message is two compressions. -/
theorem whole_71 (compress : Compress) (p s : List Nat) (hp : p.length = 64) (hs : s.length = 7) :
    sha1_whole compress (p ++ s) =
      compress (compress sha1_init p) (s ++ [0x80] ++ List.replicate 48 0 ++ be64 568) := by
  have h1 : (p ++ (s ++ [0x80] ++ List.replicate 48 0 ++ be64 568)).length = 128 := by
    simp [hp, hs, be64]
  have h2 : (s ++ [0x80] ++ List.replicate 48 0 ++ be64 568).length = 64 := by
    simp [hs, be64]
  have h3 : List.take 64 (p ++ (s ++ [0x80] ++ List.replicate 48 0 ++ be64 568)) = p := by
    rw [List.take_append_of_le_length (by omega)]; exact List.take_of_length_le (by omega)
  have h4 : List.drop 64 (p ++ (s ++ [0x80] ++ List.replicate 48 0 ++ be64 568))
      = s ++ [0x80] ++ List.replicate 48 0 ++ be64 568 := by
    rw [List.drop_append_of_le_length (by omega), List.drop_of_length_le (by omega)]; rfl
  rw [sha1_whole, pad_71 p s hp hs, h1]
  show List.foldl compress _ (blocks_of 2 _) = _
  rw [blocks_of, blocks_of, blocks_of, h3, h4, List.take_of_length_le (by omega)]
  rfl

/-- As `add_suffix_7`, reading the first 7 bytes of a longer buffer. -/
theorem add_suffix_buf (compress : Compress) (s : List Nat) (hs : 7 ≤ s.length) (e : Engine) :
    sha1_add_suffix compress s 71 7 e =
      call_compress compress e (s.take 7 ++ [0x80] ++ List.replicate 48 0 ++ be64 568) := by
  match s, hs with
  | a :: b :: c :: d :: e1 :: f :: g :: t, _ =>
    simp [sha1_add_suffix, memcpy, write_length, length_loop, BLOCK_LEN, LENGTH_SIZE, be64,
      List.replicate]
    rfl

/-- Under the invariant the printed string is the first 7 bytes of the buffer. -/
theorem printed_of_inv (s : Search) (h : SuffixInv s.suffix) :
    printed_suffix s = s.suffix.take 7 ∧ (printed_suffix s).length = 7 ∧
      ∀ b ∈ printed_suffix s, 0x21 ≤ b ∧ b ≤ 0x7D := by
  obtain ⟨a, b, c, d, e, f, g, hl, hr⟩ := suffixInv_cases _ h
  simp at hr
  have e1 : printed_suffix s = [a, b, c, d, e, f, g] := by
    simp only [printed_suffix, hl, List.takeWhile_cons, List.takeWhile_nil]
    have : a ≠ 0 ∧ b ≠ 0 ∧ c ≠ 0 ∧ d ≠ 0 ∧ e ≠ 0 ∧ f ≠ 0 ∧ g ≠ 0 := by omega
    simp [this]
  rw [e1, hl]
  refine ⟨rfl, rfl, ?_⟩
  simp
  omega

/-! ## Bounds on the score and the termination test -/

/-- The scoring loop adds at most 8 per word, for arbitrary words. -/
theorem score_loop_le (ws : List Nat) :
    ∀ lz, lz + 8 * ws.length < 256 → score_loop ws lz ≤ lz + 8 * ws.length := by
  induction ws with
  | nil => intro lz _; simp [score_loop]
  | cons w ws ih =>
    intro lz hlz
    simp only [List.length_cons] at hlz ⊢
    rw [score_loop]
    split
    · have := ih ((lz + 8) % 256) (by omega)
      omega
    · have := clz32_le w
      simp only
      omega

/-- The score of any digest is at most 40. -/
theorem score_le (h : Hash) : score h ≤ 40 := by
  have := score_loop_le h.words 0 (by simp [Hash.words])
  simpa [score, Hash.words] using this

/-- A difficulty of at most 0 is met by every state. -/
theorem found_nonpos (difficulty : Int) (hd : difficulty ≤ 0) (s : Search) :
    found difficulty s = true := by
  simp only [found, decide_eq_true_eq]
  omega

/-- A difficulty above 40 is met by no state that a trial produces. -/
theorem found_gt_40 (compress : Compress) (len : Nat) (difficulty : Int) (hd : 40 < difficulty)
    (s : Search) : found difficulty (trial compress len s) = false := by
  have h := score_le (trial compress len s).hash
  rw [← trial_lz] at h
  simp only [found, decide_eq_false_iff_not]
  omega

/-- With a difficulty above 40 the bounded loop returns nothing. -/
theorem search_loop_none (compress : Compress) (clock : Nat → Int) (len : Nat) (difficulty : Int)
    (hd : 40 < difficulty) (fuel : Nat) :
    ∀ s, search_loop compress clock len difficulty fuel s = none := by
  induction fuel with
  | zero => intro s; rfl
  | succ fuel ih =>
    intro s
    rw [search_loop]
    simp only [found_gt_40 compress len difficulty hd s]
    exact ih _

/-! ## What a trial depends on -/

/-- The suffix, generator state, digest and score after a trial depend only on
the suffix, the generator state and `hash_fb` before it. -/
theorem trial_congr (compress : Compress) (len : Nat) (s t : Search)
    (h1 : s.suffix = t.suffix) (h2 : s.state = t.state) (h3 : s.hash_fb = t.hash_fb) :
    (trial compress len s).suffix = (trial compress len t).suffix ∧
    (trial compress len s).state = (trial compress len t).state ∧
    (trial compress len s).hash_fb = (trial compress len t).hash_fb ∧
    (trial compress len s).hash = (trial compress len t).hash ∧
    (trial compress len s).lz = (trial compress len t).lz := by
  simp only [trial, mutate, h1, h2, h3, and_self]

/-- Two runs that agree on suffix, generator state and `hash_fb` keep agreeing
on them, whatever their clocks. -/
theorem loop_head_congr (compress : Compress) (c1 c2 : Nat → Int) (len : Nat) (s t : Search)
    (h1 : s.suffix = t.suffix) (h2 : s.state = t.state) (h3 : s.hash_fb = t.hash_fb) (n : Nat) :
    (loop_head compress c1 len n s).suffix = (loop_head compress c2 len n t).suffix ∧
    (loop_head compress c1 len n s).state = (loop_head compress c2 len n t).state ∧
    (loop_head compress c1 len n s).hash_fb = (loop_head compress c2 len n t).hash_fb := by
  induction n with
  | zero => exact ⟨h1, h2, h3⟩
  | succ n ih =>
    obtain ⟨a, b, c⟩ := ih
    obtain ⟨a1, b1, c1, _, _⟩ := trial_congr compress len _ _ a b c
    simp only [loop_head, report_suffix, report_state, report_hash_fb]
    exact ⟨a1, b1, c1⟩

/-- Two such runs have the same outcome within every bound. -/
theorem search_loop_congr (compress : Compress) (c1 c2 : Nat → Int) (len : Nat) (difficulty : Int)
    (fuel : Nat) : ∀ s t : Search, s.suffix = t.suffix → s.state = t.state →
      s.hash_fb = t.hash_fb →
      (search_loop compress c1 len difficulty fuel s).map Search.outcome
        = (search_loop compress c2 len difficulty fuel t).map Search.outcome := by
  induction fuel with
  | zero => intro s t _ _ _; rfl
  | succ fuel ih =>
    intro s t h1 h2 h3
    obtain ⟨a, b, c, d, e⟩ := trial_congr compress len s t h1 h2 h3
    have hf : found difficulty (trial compress len s) = found difficulty (trial compress len t) := by
      simp only [found, e]
    rw [search_loop, search_loop]
    simp only [hf]
    split
    · simp only [Option.map_some', Search.outcome, printed_suffix, a, d, e]
    · apply ih
      · rw [report_suffix, report_suffix]; exact a
      · rw [report_state, report_state]; exact b
      · rw [report_hash_fb, report_hash_fb]; exact c

/-- Initial states built from the same seed agree on suffix, generator state
and `hash_fb`. -/
theorem search_init_congr (compress : Compress) (c1 c2 : Nat → Int) (pfx : List Nat)
    (pid1 pid2 : Int) (hash1 hash2 : Hash) (lz1 lz2 : Nat)
    (hseed : (pid1 % 2 ^ 32).toNat = (pid2 % 2 ^ 32).toNat) :
    (search_init compress c1 pfx pid1 hash1 lz1).suffix
        = (search_init compress c2 pfx pid2 hash2 lz2).suffix ∧
    (search_init compress c1 pfx pid1 hash1 lz1).state
        = (search_init compress c2 pfx pid2 hash2 lz2).state ∧
    (search_init compress c1 pfx pid1 hash1 lz1).hash_fb
        = (search_init compress c2 pfx pid2 hash2 lz2).hash_fb := by
  simp only [search_init, hseed, and_self]

/-- The digest of a trial started under the invariant is the SHA-1 digest of
the prefix followed by the printed suffix. -/
theorem trial_digest (compress : Compress) (pfx : List Nat) (hp : pfx.length = 64) (s : Search)
    (hs : SuffixInv s.suffix)
    (hfb : s.hash_fb = (sha1_first_block compress pfx 64).hash) :
    (trial compress 64 s).hash =
        (sha1_add_suffix compress (printed_suffix (trial compress 64 s)) (64 + 7) 7
          { hash := (sha1_first_block compress pfx 64).hash, calls := [] }).hash ∧
    (trial compress 64 s).hash
        = sha1_whole compress (pfx ++ printed_suffix (trial compress 64 s)) := by
  have hinv : SuffixInv (trial compress 64 s).suffix := by
    rw [trial_suffix]; exact mutate_inv s hs
  obtain ⟨e1, e2, _⟩ := printed_of_inv _ hinv
  have hlen : 7 ≤ (trial compress 64 s).suffix.length := by rw [hinv.1]; decide
  have key : (trial compress 64 s).hash = compress (compress sha1_init pfx)
      (printed_suffix (trial compress 64 s) ++ [0x80] ++ List.replicate 48 0 ++ be64 568) := by
    rw [trial_hash, hfb, first_block_64 compress pfx hp]
    show (sha1_add_suffix compress _ 71 7 _).hash = _
    rw [add_suffix_buf compress _ hlen, e1]
    rfl
  constructor
  · rw [key, first_block_64 compress pfx hp]
    show _ = (sha1_add_suffix compress _ 71 7 _).hash
    rw [add_suffix_7 compress _ e2]
    rfl
  · rw [key, whole_71 compress pfx _ hp e2]

/-- Under the invariant the first 7 bytes are printable. -/
theorem printable_of_inv (l : List Nat) (h : SuffixInv l) (i : Nat) (hi : i < SUFFIX_LEN) :
    Printable (l.getD i 0) := by
  have := h.2.2 i hi
  simp only [ASCII_MIN, charset_size, ASCII_MAX] at this
  unfold Printable
  omega

/-! ## The claims -/

/-- C1: for every 64-byte prefix `p` and every 7-byte suffix `s` (printable or
not), running `sha1_add_suffix(s, 64 + 7, 7)` on a copy of the state produced
by `sha1_first_block(p, 64)` gives the digest of whole-message SHA-1 of
`p ++ s`, the fold of the same compression primitive from the standard
initial constants over the blocks of the padded message. -/
theorem incremental_eq_whole (compress : Compress) (p s : List Nat)
    (hp : p.length = 64) (hs : s.length = 7) :
    (sha1_add_suffix compress s (64 + 7) 7
        { hash := (sha1_first_block compress p 64).hash, calls := [] }).hash
      = sha1_whole compress (p ++ s) := by
  rw [whole_71 compress p s hp hs, first_block_64 compress p hp]
  show (sha1_add_suffix compress s 71 7 _).hash = _
  rw [add_suffix_7 compress s hs]
  rfl

/-- Witness for C1 with the standard compression function: the prefix of 64
letters `a` and the suffix `!!!!!!!`; both sides are the SHA-1 digest
`937dacad a922143b 73a3b0f7 7bfc6fa2 390683ae`. -/
theorem incremental_eq_whole_witness :
    (List.replicate 64 0x61).length = 64 ∧ (List.replicate 7 0x21).length = 7 ∧
    (sha1_add_suffix sha1_compress_std (List.replicate 7 0x21) (64 + 7) 7
        { hash := (sha1_first_block sha1_compress_std (List.replicate 64 0x61) 64).hash,
          calls := [] }).hash
      = sha1_whole sha1_compress_std (List.replicate 64 0x61 ++ List.replicate 7 0x21) ∧
    sha1_whole sha1_compress_std (List.replicate 64 0x61 ++ List.replicate 7 0x21)
      = { h0 := 0x937dacad, h1 := 0xa922143b, h2 := 0x73a3b0f7, h3 := 0x7bfc6fa2,
          h4 := 0x390683ae } :=
  ⟨by decide, by decide,
    incremental_eq_whole sha1_compress_std (List.replicate 64 0x61) (List.replicate 7 0x21)
      (by decide) (by decide),
    by decide⟩

/-- C2: for every digest of five 32-bit words, the score computed by the
scoring loop equals the number of consecutive leading zero hex nibbles of the
digest read most significant word first (the leading zeros of its rendering
in 40 hex digits, 8 per word), and lies between 0 and 40. -/
theorem score_eq_leading_zero_nibbles (h : Hash) (hw : h.IsWord32) :
    score h = leading_zero_nibbles h ∧ 0 ≤ score h ∧ score h ≤ 40 :=
  ⟨score_eq_nibbles h hw, Nat.zero_le _, score_le h⟩

/-- Witness for C2: the digest `0008d7ab fcd247e8 daa38497 b63f4b1d 85b5aa7f`
has three leading zero nibbles. -/
theorem score_eq_leading_zero_nibbles_witness :
    Hash.IsWord32 ⟨0x0008d7ab, 0xfcd247e8, 0xdaa38497, 0xb63f4b1d, 0x85b5aa7f⟩ ∧
    leading_zero_nibbles ⟨0x0008d7ab, 0xfcd247e8, 0xdaa38497, 0xb63f4b1d, 0x85b5aa7f⟩ = 3 ∧
    (score ⟨0x0008d7ab, 0xfcd247e8, 0xdaa38497, 0xb63f4b1d, 0x85b5aa7f⟩
        = leading_zero_nibbles ⟨0x0008d7ab, 0xfcd247e8, 0xdaa38497, 0xb63f4b1d, 0x85b5aa7f⟩ ∧
      0 ≤ score ⟨0x0008d7ab, 0xfcd247e8, 0xdaa38497, 0xb63f4b1d, 0x85b5aa7f⟩ ∧
      score ⟨0x0008d7ab, 0xfcd247e8, 0xdaa38497, 0xb63f4b1d, 0x85b5aa7f⟩ ≤ 40) :=
  ⟨by decide, by decide,
    score_eq_leading_zero_nibbles ⟨0x0008d7ab, 0xfcd247e8, 0xdaa38497, 0xb63f4b1d, 0x85b5aa7f⟩
      (by decide)⟩

/-- C3: if the first `k` words of a digest (`k < 5`) are zero and word `k` is
not, the score is `8 * k + clz32 (word k) / 4`, and every digest with the same
words up to index `k` has the same score; the all-zero digest scores 40; a
digest starting `00000000 00000000 F0000000` scores 16 and one starting
`0F000000` scores 1. -/
theorem score_first_nonzero_word :
    (∀ (h : Hash) (k : Nat), k < 5 → (∀ i, i < k → h.words.getD i 0 = 0) →
      h.words.getD k 0 ≠ 0 →
        score h = 8 * k + clz32 (h.words.getD k 0) / 4 ∧
        ∀ h2 : Hash, (∀ i, i ≤ k → h2.words.getD i 0 = h.words.getD i 0) → score h2 = score h) ∧
    score ⟨0, 0, 0, 0, 0⟩ = 40 ∧
    (∀ a b : Nat, score ⟨0x00000000, 0x00000000, 0xF0000000, a, b⟩ = 16) ∧
    (∀ a b c d : Nat, score ⟨0x0F000000, a, b, c, d⟩ = 1) := by
  have main : ∀ (h : Hash) (k : Nat), k < 5 → (∀ i, i < k → h.words.getD i 0 = 0) →
      h.words.getD k 0 ≠ 0 → score h = 8 * k + clz32 (h.words.getD k 0) / 4 := by
    intro h k hk hz hnz
    obtain ⟨a, b, c, d, e⟩ := h
    have ha := clz32_le a
    have hb := clz32_le b
    have hc := clz32_le c
    have hd := clz32_le d
    have he := clz32_le e
    interval_cases k
    · simp only [Hash.words, List.getD_cons_zero] at hnz ⊢
      simp only [score, score_loop, Hash.words, if_neg hnz]
      omega
    · have h0 := hz 0 (by decide)
      simp only [Hash.words, List.getD_cons_zero, List.getD_cons_succ] at hnz h0 ⊢
      subst h0
      simp only [score, score_loop, Hash.words, if_neg hnz, if_true]
      omega
    · have h0 := hz 0 (by decide)
      have h1 := hz 1 (by decide)
      simp only [Hash.words, List.getD_cons_zero, List.getD_cons_succ] at hnz h0 h1 ⊢
      subst h0 h1
      simp only [score, score_loop, Hash.words, if_neg hnz, if_true]
      omega
    · have h0 := hz 0 (by decide)
      have h1 := hz 1 (by decide)
      have h2 := hz 2 (by decide)
      simp only [Hash.words, List.getD_cons_zero, List.getD_cons_succ] at hnz h0 h1 h2 ⊢
      subst h0 h1 h2
      simp only [score, score_loop, Hash.words, if_neg hnz, if_true]
      omega
    · have h0 := hz 0 (by decide)
      have h1 := hz 1 (by decide)
      have h2 := hz 2 (by decide)
      have h3 := hz 3 (by decide)
      simp only [Hash.words, List.getD_cons_zero, List.getD_cons_succ] at hnz h0 h1 h2 h3 ⊢
      subst h0 h1 h2 h3
      simp only [score, score_loop, Hash.words, if_neg hnz, if_true]
      omega
  refine ⟨?_, by decide, ?_, ?_⟩
  · intro h k hk hz hnz
    refine ⟨main h k hk hz hnz, ?_⟩
    intro h2 hagree
    rw [main h k hk hz hnz, main h2 k hk (fun i hi => by rw [hagree i (by omega)]; exact hz i hi)
      (by rw [hagree k (le_refl k)]; exact hnz), hagree k (le_refl k)]
  · intro a b
    have := main ⟨0, 0, 0xF0000000, a, b⟩ 2 (by decide)
      (by intro i hi; interval_cases i <;> rfl) (by simp [Hash.words])
    simp only [Hash.words, List.getD_cons_succ, List.getD_cons_zero] at this
    rw [this]; decide
  · intro a b c d
    have := main ⟨0x0F000000, a, b, c, d⟩ 0 (by decide)
      (by intro i hi; omega) (by simp [Hash.words])
    simp only [Hash.words, List.getD_cons_zero] at this
    rw [this]; decide

/-- Witness for C3: in `00000000 00000000 00012345 ffffffff 00000000` the
first two words are zero and the third is not; the score is
`8 * 2 + 15 / 4 = 19`, also when the last two words are changed. -/
theorem score_first_nonzero_word_witness :
    (2 < 5 ∧ (∀ i, i < 2 → (Hash.words ⟨0, 0, 0x12345, 0xffffffff, 0⟩).getD i 0 = 0) ∧
      (Hash.words ⟨0, 0, 0x12345, 0xffffffff, 0⟩).getD 2 0 ≠ 0) ∧
    clz32 0x12345 = 15 ∧
    score ⟨0, 0, 0x12345, 0xffffffff, 0⟩ = 19 ∧
    score ⟨0, 0, 0x12345, 7, 8⟩ = score ⟨0, 0, 0x12345, 0xffffffff, 0⟩ :=
  ⟨⟨by decide, by decide, by decide⟩, by decide,
    ((score_first_nonzero_word.1 ⟨0, 0, 0x12345, 0xffffffff, 0⟩ 2 (by decide) (by decide)
      (by decide)).1).trans (by decide),
    (score_first_nonzero_word.1 ⟨0, 0, 0x12345, 0xffffffff, 0⟩ 2 (by decide) (by decide)
      (by decide)).2 ⟨0, 0, 0x12345, 7, 8⟩ (by decide)⟩

/-- C4: for every seed, after the initialisation loop and after the mutation
step of every trial of the search loop, each of the 7 suffix bytes lies in the
inclusive range `0x21 .. 0x7E`. -/
theorem suffix_bytes_printable (compress : Compress) (clock : Nat → Int) (pfx : List Nat)
    (pid : Int) (hash0 : Hash) (lz0 : Nat) (n i : Nat) (hi : i < SUFFIX_LEN) :
    Printable ((search_init compress clock pfx pid hash0 lz0).suffix.getD i 0) ∧
    Printable ((trial compress pfx.length (loop_head compress clock pfx.length n
      (search_init compress clock pfx pid hash0 lz0))).suffix.getD i 0) := by
  have h0 := search_init_inv compress clock pfx pid hash0 lz0
  refine ⟨printable_of_inv _ h0 i hi, printable_of_inv _ ?_ i hi⟩
  rw [trial_suffix]
  exact mutate_inv _ (loop_head_inv compress clock pfx.length _ h0 n)

/-- Witness for C4: the generator seeded with 113, byte 5 of the suffix, at
initialisation and after the mutation of the fourth trial (`0x4C`). -/
theorem suffix_bytes_printable_witness :
    5 < SUFFIX_LEN ∧
    (trial sha1_compress_std letters_a64.length (loop_head sha1_compress_std sample_clock
      letters_a64.length 3 (search_init sha1_compress_std sample_clock letters_a64 113
        ⟨1, 2, 3, 4, 5⟩ 9))).suffix.getD 5 0 = 0x4C ∧
    (Printable ((search_init sha1_compress_std sample_clock letters_a64 113
        ⟨1, 2, 3, 4, 5⟩ 9).suffix.getD 5 0) ∧
     Printable ((trial sha1_compress_std letters_a64.length (loop_head sha1_compress_std
      sample_clock letters_a64.length 3 (search_init sha1_compress_std sample_clock letters_a64
        113 ⟨1, 2, 3, 4, 5⟩ 9))).suffix.getD 5 0)) :=
  ⟨by decide, by decide,
    suffix_bytes_printable sha1_compress_std sample_clock letters_a64 113 ⟨1, 2, 3, 4, 5⟩ 9 3 5
      (by decide)⟩

/-- C5, as the code behaves: no generator output makes the suffix-byte
expression produce `0x7E`; over the 32-bit generator outputs the values
produced are exactly `0x21 .. 0x7D` (93 values); the output 93, which the
generator returns from state 134201346, wraps to `0x21`. -/
theorem suffix_byte_range :
    (∀ r, suffix_byte r ≠ 0x7E) ∧
    (∀ b, (∃ r, r < 2 ^ 32 ∧ suffix_byte r = b) ↔ (0x21 ≤ b ∧ b ≤ 0x7D)) ∧
    suffix_byte 93 = 0x21 ∧ charset_size = 93 ∧ xorshift32 134201346 = 93 := by
  refine ⟨?_, ?_, by decide, by decide, by decide⟩
  · intro r
    have := suffix_byte_bounds r
    omega
  · intro b
    constructor
    · rintro ⟨r, _, rfl⟩
      exact suffix_byte_bounds r
    · rintro ⟨h1, h2⟩
      refine ⟨b - 0x21, by omega, ?_⟩
      simp only [suffix_byte, charset_size, ASCII_MIN, ASCII_MAX]
      norm_num
      omega

/-- C6: whenever the search loop terminates, the suffix it prints consists of
7 printable bytes, the digest it reports is the result of `sha1_add_suffix`
on the prefix-only state and that suffix, hence the SHA-1 digest of
prefix ++ suffix, and the score of that digest is at least the difficulty. -/
theorem search_result_correct (compress : Compress) (clock : Nat → Int) (pfx : List Nat)
    (difficulty pid : Int) (hash0 : Hash) (lz0 fuel : Nat) (r : Search)
    (hp : pfx.length = 64)
    (hr : search compress clock pfx difficulty pid hash0 lz0 fuel = some r) :
    (printed_suffix r).length = 7 ∧ (∀ b ∈ printed_suffix r, Printable b) ∧
    r.hash = (sha1_add_suffix compress (printed_suffix r) (64 + 7) 7
      { hash := (sha1_first_block compress pfx 64).hash, calls := [] }).hash ∧
    r.hash = sha1_whole compress (pfx ++ printed_suffix r) ∧
    r.lz = score r.hash ∧ (score r.hash : Int) ≥ difficulty := by
  unfold search at hr
  rw [hp] at hr
  obtain ⟨n, _, hrn, hf⟩ := search_loop_some compress clock 64 difficulty fuel _ _ hr
  have h0 := search_init_inv compress clock pfx pid hash0 lz0
  have hinv := loop_head_inv compress clock 64 _ h0 n
  have hfb : (loop_head compress clock 64 n (search_init compress clock pfx pid hash0 lz0)).hash_fb
      = (sha1_first_block compress pfx 64).hash := by
    rw [loop_head_hash_fb]
    show (sha1_first_block compress pfx pfx.length).hash = _
    rw [hp]
  obtain ⟨d1, d2⟩ := trial_digest compress pfx hp _ hinv hfb
  rw [← hrn] at d1 d2
  have hrinv : SuffixInv r.suffix := by
    rw [hrn, trial_suffix]; exact mutate_inv _ hinv
  obtain ⟨_, p2, p3⟩ := printed_of_inv r hrinv
  have hlz : r.lz = score r.hash := by rw [hrn]; rfl
  refine ⟨p2, ?_, d1, d2, hlz, ?_⟩
  · intro b hb
    have := p3 b hb
    unfold Printable
    omega
  · simp only [found, decide_eq_true_eq] at hf
    rw [← hlz]
    exact hf

/-- Witness for C6, the scenario of the specification: prefix of 64 letters
`a`, difficulty 8, generator seeded with 1080559823.  The first four trials
fail and the fifth succeeds with the suffix `|YF2Pq>` and the digest
`00000000 49959d7a 07a03dff e0a7ba6c a6ab9776`, which is the SHA-1 digest of
the 71-byte message and has eight leading zero nibbles. -/
theorem search_result_correct_witness :
    letters_a64.length = 64 ∧
    search sha1_compress_std sample_clock letters_a64 8 1080559823 ⟨1, 2, 3, 4, 5⟩ 9 5 =
      some { suffix := [0x7C, 0x59, 0x46, 0x32, 0x50, 0x71, 0x3E, 0],
             hash := ⟨0x00000000, 0x49959d7a, 0x07a03dff, 0xe0a7ba6c, 0xa6ab9776⟩,
             hash_fb := ⟨3662244075, 775388191, 2286849874, 2203208683, 3880697277⟩,
             state := 3679147183, lz := 8, counter := 5, start_time := 0, clocks := 1,
             reports := [] } ∧
    search sha1_compress_std sample_clock letters_a64 8 1080559823 ⟨1, 2, 3, 4, 5⟩ 9 4 = none ∧
    sha1_whole sha1_compress_std (letters_a64 ++ [0x7C, 0x59, 0x46, 0x32, 0x50, 0x71, 0x3E])
      = ⟨0x00000000, 0x49959d7a, 0x07a03dff, 0xe0a7ba6c, 0xa6ab9776⟩ ∧
    (score ⟨0x00000000, 0x49959d7a, 0x07a03dff, 0xe0a7ba6c, 0xa6ab9776⟩ : Int) ≥ 8 :=
  ⟨by decide, by decide, by decide,
    ((search_result_correct sha1_compress_std sample_clock letters_a64 8 1080559823
      ⟨1, 2, 3, 4, 5⟩ 9 5
      { suffix := [0x7C, 0x59, 0x46, 0x32, 0x50, 0x71, 0x3E, 0],
        hash := ⟨0x00000000, 0x49959d7a, 0x07a03dff, 0xe0a7ba6c, 0xa6ab9776⟩,
        hash_fb := ⟨3662244075, 775388191, 2286849874, 2203208683, 3880697277⟩,
        state := 3679147183, lz := 8, counter := 5, start_time := 0, clocks := 1,
        reports := [] } (by decide) (by decide)).2.2.2.1).symm,
    (search_result_correct sha1_compress_std sample_clock letters_a64 8 1080559823
      ⟨1, 2, 3, 4, 5⟩ 9 5
      { suffix := [0x7C, 0x59, 0x46, 0x32, 0x50, 0x71, 0x3E, 0],
        hash := ⟨0x00000000, 0x49959d7a, 0x07a03dff, 0xe0a7ba6c, 0xa6ab9776⟩,
        hash_fb := ⟨3662244075, 775388191, 2286849874, 2203208683, 3880697277⟩,
        state := 3679147183, lz := 8, counter := 5, start_time := 0, clocks := 1,
        reports := [] } (by decide) (by decide)).2.2.2.2.2⟩

/-- C7: for every 64-byte prefix and every seed, the search with difficulty 0
stops at its first trial: whatever the bound on the number of trials (at least
one), the result is the state after one trial of the initial state, with
`counter = 1` and the suffix of one mutation, and the digest returned is the
SHA-1 digest of prefix ++ returned suffix. -/
theorem search_difficulty_zero (compress : Compress) (clock : Nat → Int) (pfx : List Nat)
    (pid : Int) (hash0 : Hash) (lz0 fuel : Nat) (hp : pfx.length = 64) :
    ∃ r, search compress clock pfx 0 pid hash0 lz0 (fuel + 1) = some r ∧
      r = trial compress 64 (search_init compress clock pfx pid hash0 lz0) ∧
      r.counter = 1 ∧
      r.suffix = (mutate (search_init compress clock pfx pid hash0 lz0)).suffix ∧
      r.hash = (sha1_add_suffix compress (printed_suffix r) (64 + 7) 7
        { hash := (sha1_first_block compress pfx 64).hash, calls := [] }).hash ∧
      r.hash = sha1_whole compress (pfx ++ printed_suffix r) := by
  have h0 := search_init_inv compress clock pfx pid hash0 lz0
  have hfb : (search_init compress clock pfx pid hash0 lz0).hash_fb
      = (sha1_first_block compress pfx 64).hash := by
    show (sha1_first_block compress pfx pfx.length).hash = _
    rw [hp]
  obtain ⟨d1, d2⟩ := trial_digest compress pfx hp _ h0 hfb
  refine ⟨_, ?_, rfl, rfl, rfl, d1, d2⟩
  unfold search
  rw [hp, search_loop]
  simp only [found_nonpos 0 (le_refl 0), if_true]

/-- Witness for C7: prefix of 64 letters `a`, generator seeded with 113, a
budget of one trial. -/
theorem search_difficulty_zero_witness :
    letters_a64.length = 64 ∧
    search sha1_compress_std sample_clock letters_a64 0 113 ⟨1, 2, 3, 4, 5⟩ 9 1 =
      some { suffix := [104, 55, 109, 43, 58, 56, 108, 0],
             hash := ⟨1368176847, 1388113269, 2802352415, 2961378111, 2135743517⟩,
             hash_fb := ⟨3662244075, 775388191, 2286849874, 2203208683, 3880697277⟩,
             state := 3830423575, lz := 0, counter := 1, start_time := 0, clocks := 1,
             reports := [] } ∧
    ∃ r, search sha1_compress_std sample_clock letters_a64 0 113 ⟨1, 2, 3, 4, 5⟩ 9 (0 + 1)
        = some r ∧
      r = trial sha1_compress_std 64
        (search_init sha1_compress_std sample_clock letters_a64 113 ⟨1, 2, 3, 4, 5⟩ 9) ∧
      r.counter = 1 ∧
      r.suffix = (mutate
        (search_init sha1_compress_std sample_clock letters_a64 113 ⟨1, 2, 3, 4, 5⟩ 9)).suffix ∧
      r.hash = (sha1_add_suffix sha1_compress_std (printed_suffix r) (64 + 7) 7
        { hash := (sha1_first_block sha1_compress_std letters_a64 64).hash, calls := [] }).hash ∧
      r.hash = sha1_whole sha1_compress_std (letters_a64 ++ printed_suffix r) :=
  ⟨by decide, by decide,
    search_difficulty_zero sha1_compress_std sample_clock letters_a64 113 ⟨1, 2, 3, 4, 5⟩ 9 0
      (by decide)⟩

/-- C8: for every difficulty greater than 40, no trial of the search loop
passes the test `lz >= difficulty`, whatever the state it starts from, the
prefix length and the compression primitive; hence the search returns nothing
within any number of trials. -/
theorem search_never_terminates (compress : Compress) (clock : Nat → Int) (pfx : List Nat)
    (difficulty pid : Int) (hash0 : Hash) (lz0 : Nat) (hd : 40 < difficulty) :
    (∀ (len : Nat) (s : Search), found difficulty (trial compress len s) = false) ∧
    ∀ fuel, search compress clock pfx difficulty pid hash0 lz0 fuel = none :=
  ⟨fun len s => found_gt_40 compress len difficulty hd s,
   fun fuel => search_loop_none compress clock pfx.length difficulty hd fuel _⟩

/-- Witness for C8: difficulty 41 on the prefix of 64 letters `a`. -/
theorem search_never_terminates_witness :
    (40 : Int) < 41 ∧
    search sha1_compress_std sample_clock letters_a64 41 113 ⟨1, 2, 3, 4, 5⟩ 9 3 = none ∧
    ((∀ (len : Nat) (s : Search), found 41 (trial sha1_compress_std len s) = false) ∧
     ∀ fuel, search sha1_compress_std sample_clock letters_a64 41 113 ⟨1, 2, 3, 4, 5⟩ 9 fuel
       = none) :=
  ⟨by decide, by decide,
    search_never_terminates sha1_compress_std sample_clock letters_a64 41 113 ⟨1, 2, 3, 4, 5⟩ 9
      (by decide)⟩

/-- C9: the search is determined by the prefix, the difficulty and the initial
generator state.  Two runs that agree on these, whatever their clock readings
and the initial contents of the uninitialised `hash` and `lz`, have the same
initial suffix, the same suffix after the mutation of every trial, and within
every number of trials the same outcome (printed suffix, buffer, digest and
score). -/
theorem search_deterministic (compress : Compress) (pfx : List Nat) (difficulty : Int)
    (pid1 pid2 : Int) (clock1 clock2 : Nat → Int) (hash1 hash2 : Hash) (lz1 lz2 : Nat)
    (hseed : (pid1 % 2 ^ 32).toNat = (pid2 % 2 ^ 32).toNat) :
    (search_init compress clock1 pfx pid1 hash1 lz1).suffix
      = (search_init compress clock2 pfx pid2 hash2 lz2).suffix ∧
    (∀ n, (trial compress pfx.length (loop_head compress clock1 pfx.length n
            (search_init compress clock1 pfx pid1 hash1 lz1))).suffix
        = (trial compress pfx.length (loop_head compress clock2 pfx.length n
            (search_init compress clock2 pfx pid2 hash2 lz2))).suffix) ∧
    (∀ fuel, (search compress clock1 pfx difficulty pid1 hash1 lz1 fuel).map Search.outcome
        = (search compress clock2 pfx difficulty pid2 hash2 lz2 fuel).map Search.outcome) := by
  obtain ⟨a, b, c⟩ := search_init_congr compress clock1 clock2 pfx pid1 pid2 hash1 hash2 lz1 lz2
    hseed
  refine ⟨a, ?_, ?_⟩
  · intro n
    obtain ⟨a1, b1, c1⟩ := loop_head_congr compress clock1 clock2 pfx.length _ _ a b c n
    exact (trial_congr compress pfx.length _ _ a1 b1 c1).1
  · intro fuel
    exact search_loop_congr compress clock1 clock2 pfx.length difficulty fuel _ _ a b c

/-- Witness for C9: process ids 113 and `113 + 2^32` give the same seed; the
two runs differ in the clock and in the initial contents of `hash` and `lz`,
and both print `h7=+:Ll` at the fourth trial. -/
theorem search_deterministic_witness :
    (((113 : Int) % 2 ^ 32).toNat = ((113 + 2 ^ 32 : Int) % 2 ^ 32).toNat) ∧
    (search sha1_compress_std sample_clock letters_a64 2 113 ⟨1, 2, 3, 4, 5⟩ 9 5).map
        Search.outcome
      = some ([104, 55, 61, 43, 58, 76, 108], [104, 55, 61, 43, 58, 76, 108, 0],
          ⟨0x001dc79c, 0xe1a6073f, 0xf58a58a7, 0x0f39cc44, 0xbd446e39⟩, 2) ∧
    (search sha1_compress_std sample_clock letters_a64 2 113 ⟨1, 2, 3, 4, 5⟩ 9 5).map
        Search.outcome
      = (search sha1_compress_std frozen_clock letters_a64 2 (113 + 2 ^ 32) ⟨0, 0, 0, 0, 0⟩ 0
          5).map Search.outcome :=
  ⟨by decide, by decide,
    (search_deterministic sha1_compress_std letters_a64 2 113 (113 + 2 ^ 32) sample_clock
      frozen_clock ⟨1, 2, 3, 4, 5⟩ ⟨0, 0, 0, 0, 0⟩ 9 0 (by decide)).2.2 5⟩

/-- C10: for every 64-byte prefix `p`, `sha1_first_block(p, 64)` calls the
compression primitive exactly once, on the block `p`, and returns the
primitive applied to the standard SHA-1 initial constants and `p`. -/
theorem first_block_single_compress (compress : Compress) (p : List Nat) (hp : p.length = 64) :
    (sha1_first_block compress p 64).calls = [p] ∧
    (sha1_first_block compress p 64).calls.length = 1 ∧
    (sha1_first_block compress p 64).hash
      = compress ⟨0x67452301, 0xEFCDAB89, 0x98BADCFE, 0x10325476, 0xC3D2E1F0⟩ p := by
  rw [first_block_64 compress p hp]
  exact ⟨rfl, rfl, rfl⟩

/-- Witness for C10: the prefix of 64 letters `a` under the standard
compression function. -/
theorem first_block_single_compress_witness :
    letters_a64.length = 64 ∧
    (sha1_first_block sha1_compress_std letters_a64 64).hash
      = ⟨3662244075, 775388191, 2286849874, 2203208683, 3880697277⟩ ∧
    ((sha1_first_block sha1_compress_std letters_a64 64).calls = [letters_a64] ∧
     (sha1_first_block sha1_compress_std letters_a64 64).calls.length = 1 ∧
     (sha1_first_block sha1_compress_std letters_a64 64).hash
       = sha1_compress_std ⟨0x67452301, 0xEFCDAB89, 0x98BADCFE, 0x10325476, 0xC3D2E1F0⟩
           letters_a64) :=
  ⟨by decide, by decide, first_block_single_compress sha1_compress_std letters_a64 (by decide)⟩

/-! ## Lemmas on the length field and on the calls of `sha1_add_suffix` -/

/-- Masking with `0xFF` keeps the low byte. -/
theorem and_255 (x : Nat) : x &&& 0xFF = x % 256 := Nat.and_pow_two_sub_one_eq_mod x 8

/-- Masking with `0x1F` keeps the low five bits. -/
theorem and_31 (x : Nat) : x &&& 0x1F = x % 32 := Nat.and_pow_two_sub_one_eq_mod x 5

/-- The eight bytes that lines 178-181 store, from index 56 to index 63. -/
theorem length_bytes_eq (len : Nat) :
    [(len >>> 5 >>> 8 >>> 8 >>> 8 >>> 8 >>> 8 >>> 8 &&& 0xFF) % 256,
     (len >>> 5 >>> 8 >>> 8 >>> 8 >>> 8 >>> 8 &&& 0xFF) % 256,
     (len >>> 5 >>> 8 >>> 8 >>> 8 >>> 8 &&& 0xFF) % 256,
     (len >>> 5 >>> 8 >>> 8 >>> 8 &&& 0xFF) % 256,
     (len >>> 5 >>> 8 >>> 8 &&& 0xFF) % 256,
     (len >>> 5 >>> 8 &&& 0xFF) % 256,
     (len >>> 5 &&& 0xFF) % 256,
     ((len &&& 0x1F) <<< 3) % 256] = be64 (8 * len % 2 ^ 64) := by
  simp only [and_255, and_31, Nat.shiftRight_eq_div_pow, Nat.shiftLeft_eq, be64]
  norm_num
  refine ⟨?_, ?_, ?_, ?_, ?_, ?_, ?_, ?_⟩ <;> omega

/-- Lines 178-181 overwrite the last 8 bytes of a 64-byte block with the bit
length, big-endian, and leave the first 56 bytes alone. -/
theorem write_length_eq (pre : List Nat) (t : List Nat) (len : Nat) (hp : pre.length = 56)
    (ht : t.length = 8) :
    write_length (pre ++ t) len = pre ++ be64 (8 * len % 2 ^ 64) := by
  match t, ht with
  | [a, b, c, d, e, f, g, h], _ =>
    rw [← length_bytes_eq]
    simp only [write_length, length_loop, BLOCK_LEN, LENGTH_SIZE]
    simp [List.set_append_right, hp, List.set]

/-- Reading back a 64-bit big-endian encoding gives the number encoded. -/
theorem be_value_be64 (n : Nat) (hn : n < 2 ^ 64) : be_value (be64 n) = n := by
  simp only [be_value, be64, List.foldl]
  norm_num
  omega

/-- The block after `memcpy` and the store of the marker byte. -/
theorem marked_block (suffix : List Nat) (n : Nat) (hn : n ≤ 63) (hs : n ≤ suffix.length) :
    (memcpy (List.replicate BLOCK_LEN 0) suffix n).set n 0x80
      = suffix.take n ++ 0x80 :: List.replicate (63 - n) 0 := by
  have hl : (suffix.take n).length = n := by simp [hs]
  have h64 : 64 - n = (63 - n) + 1 := by omega
  simp only [memcpy, BLOCK_LEN, List.drop_replicate]
  rw [List.set_append_right _ _ (by omega), hl, Nat.sub_self, h64, List.replicate_succ, List.set]

/-- A suffix of at most 55 bytes is finished with one compression. -/
theorem add_suffix_one_call (compress : Compress) (suffix : List Nat) (len n : Nat) (e : Engine)
    (hn : n < 56) (hs : n ≤ suffix.length) :
    sha1_add_suffix compress suffix len n e = call_compress compress e
      (suffix.take n ++ [0x80] ++ List.replicate (55 - n) 0 ++ be64 (8 * len % 2 ^ 64)) := by
  have hl : (suffix.take n).length = n := by simp [hs]
  have hsplit : 63 - n = (55 - n) + 8 := by omega
  have hblk : suffix.take n ++ 0x80 :: List.replicate (63 - n) 0
      = (suffix.take n ++ [0x80] ++ List.replicate (55 - n) 0) ++ List.replicate 8 0 := by
    rw [hsplit, List.replicate_add]; simp
  have hcond : ¬ (BLOCK_LEN - (n + 1) < LENGTH_SIZE) := by
    simp only [BLOCK_LEN, LENGTH_SIZE]; omega
  simp only [sha1_add_suffix, if_neg hcond]
  rw [marked_block suffix n (by omega) hs, hblk,
    write_length_eq _ _ len (by simp [hl]; omega) (by simp)]

/-- A suffix of 56 to 63 bytes is finished with two compressions. -/
theorem add_suffix_two_calls (compress : Compress) (suffix : List Nat) (len n : Nat) (e : Engine)
    (hn1 : 56 ≤ n) (hn : n ≤ 63) (hs : n ≤ suffix.length) :
    sha1_add_suffix compress suffix len n e = call_compress compress
      (call_compress compress e (suffix.take n ++ [0x80] ++ List.replicate (63 - n) 0))
      (List.replicate 56 0 ++ be64 (8 * len % 2 ^ 64)) := by
  have hcond : BLOCK_LEN - (n + 1) < LENGTH_SIZE := by
    simp only [BLOCK_LEN, LENGTH_SIZE]; omega
  have hz : List.replicate BLOCK_LEN 0 = List.replicate 56 0 ++ List.replicate 8 0 := by
    simp only [BLOCK_LEN]; rw [← List.replicate_add]
  simp only [sha1_add_suffix, if_pos hcond]
  rw [marked_block suffix n hn hs]
  congr 1
  · simp
  · rw [hz, write_length_eq _ _ len (by simp) (by simp)]

/-- The terminal block after a call is the block of that call. -/
theorem terminal_call (compress : Compress) (e : Engine) (b : List Nat) :
    (call_compress compress e b).terminal_block = b := by
  simp [Engine.terminal_block, call_compress]

/-- The terminal block of `sha1_add_suffix` is 56 bytes followed by the bit
length. -/
theorem add_suffix_terminal (compress : Compress) (suffix : List Nat) (len n : Nat) (e : Engine)
    (hn : n ≤ 63) (hs : n ≤ suffix.length) :
    ∃ pre : List Nat, pre.length = 56 ∧
      (sha1_add_suffix compress suffix len n e).terminal_block
        = pre ++ be64 (8 * len % 2 ^ 64) := by
  have hl : (suffix.take n).length = n := by simp [hs]
  by_cases h : n < 56
  · refine ⟨suffix.take n ++ [0x80] ++ List.replicate (55 - n) 0, by simp [hl]; omega, ?_⟩
    rw [add_suffix_one_call compress suffix len n e h hs, terminal_call]
  · refine ⟨List.replicate 56 0, by simp, ?_⟩
    rw [add_suffix_two_calls compress suffix len n e (by omega) hn hs, terminal_call]

/-! ## The generator never reaches zero from a non-zero state -/

/-- The generator output is a 32-bit word. -/
theorem xorshift32_lt (a : Nat) (hlt : a < 2 ^ 32) : xorshift32 a < 2 ^ 32 := by
  have h1 : a ^^^ ((a <<< 13) % 2 ^ 32) < 2 ^ 32 :=
    Nat.xor_lt_two_pow hlt (Nat.mod_lt _ (by positivity))
  have h2 : (a ^^^ ((a <<< 13) % 2 ^ 32)) >>> 17 < 2 ^ 32 := by
    rw [Nat.shiftRight_eq_div_pow]; exact lt_of_le_of_lt (Nat.div_le_self _ _) h1
  exact Nat.xor_lt_two_pow (Nat.xor_lt_two_pow h1 h2) (Nat.mod_lt _ (by positivity))

/-- Each of the three xor-shift steps maps a non-zero word to a non-zero word,
so the generator does. -/
theorem xorshift32_ne_zero (a : Nat) (ha : a ≠ 0) (hlt : a < 2 ^ 32) : xorshift32 a ≠ 0 := by
  simp only [xorshift32]
  have h1 : a ^^^ ((a <<< 13) % 2 ^ 32) < 2 ^ 32 :=
    Nat.xor_lt_two_pow hlt (Nat.mod_lt _ (by positivity))
  have n1 : a ^^^ ((a <<< 13) % 2 ^ 32) ≠ 0 := by
    intro h
    rw [Nat.xor_eq_zero, Nat.shiftLeft_eq] at h
    norm_num at h
    omega
  generalize a ^^^ ((a <<< 13) % 2 ^ 32) = x1 at h1 n1 ⊢
  have h2 : x1 ^^^ (x1 >>> 17) < 2 ^ 32 := by
    refine Nat.xor_lt_two_pow h1 ?_
    rw [Nat.shiftRight_eq_div_pow]; exact lt_of_le_of_lt (Nat.div_le_self _ _) h1
  have n2 : x1 ^^^ (x1 >>> 17) ≠ 0 := by
    intro h
    rw [Nat.xor_eq_zero, Nat.shiftRight_eq_div_pow] at h
    norm_num at h
    omega
  generalize x1 ^^^ (x1 >>> 17) = x2 at h2 n2 ⊢
  intro h
  rw [Nat.xor_eq_zero, Nat.shiftLeft_eq] at h
  norm_num at h
  omega

/-- The seed is a 32-bit word. -/
theorem seed_lt (pid : Int) : (pid % 2 ^ 32).toNat < 2 ^ 32 := by
  have h1 : 0 ≤ pid % 2 ^ 32 := Int.emod_nonneg _ (by norm_num)
  have h2 : pid % 2 ^ 32 < 2 ^ 32 := Int.emod_lt_of_pos _ (by norm_num)
  omega

/-- The initialisation loop advances the generator seven times. -/
theorem init_suffix_state (suffix : List Nat) (st : Nat) :
    (init_suffix suffix st).2 = xorshift32 (xorshift32 (xorshift32 (xorshift32 (xorshift32
      (xorshift32 (xorshift32 st)))))) := rfl

/-- The mutation advances the generator twice. -/
theorem mutate_state (s : Search) : (mutate s).state = xorshift32 (xorshift32 s.state) := rfl

/-- With a non-zero seed the state after initialisation is non-zero. -/
theorem state_good_init (compress : Compress) (clock : Nat → Int) (pfx : List Nat) (pid : Int)
    (hash0 : Hash) (lz0 : Nat) (h : (pid % 2 ^ 32).toNat ≠ 0) :
    (search_init compress clock pfx pid hash0 lz0).state ≠ 0 ∧
      (search_init compress clock pfx pid hash0 lz0).state < 2 ^ 32 := by
  have step : ∀ a, a ≠ 0 ∧ a < 2 ^ 32 → xorshift32 a ≠ 0 ∧ xorshift32 a < 2 ^ 32 :=
    fun a ha => ⟨xorshift32_ne_zero a ha.1 ha.2, xorshift32_lt a ha.2⟩
  show (init_suffix _ _).2 ≠ 0 ∧ (init_suffix _ _).2 < 2 ^ 32
  rw [init_suffix_state]
  exact step _ (step _ (step _ (step _ (step _ (step _ (step _ ⟨h, seed_lt pid⟩))))))

/-- A trial keeps the generator state non-zero. -/
theorem state_good_trial (compress : Compress) (len : Nat) (s : Search)
    (h : s.state ≠ 0 ∧ s.state < 2 ^ 32) :
    (trial compress len s).state ≠ 0 ∧ (trial compress len s).state < 2 ^ 32 := by
  show (mutate s).state ≠ 0 ∧ (mutate s).state < 2 ^ 32
  rw [mutate_state]
  exact ⟨xorshift32_ne_zero _ (xorshift32_ne_zero _ h.1 h.2) (xorshift32_lt _ h.2),
    xorshift32_lt _ (xorshift32_lt _ h.2)⟩

/-- The generator state is non-zero at the head of every iteration. -/
theorem state_good_loop_head (compress : Compress) (clock : Nat → Int) (len : Nat) (s : Search)
    (h : s.state ≠ 0 ∧ s.state < 2 ^ 32) (n : Nat) :
    (loop_head compress clock len n s).state ≠ 0 ∧
      (loop_head compress clock len n s).state < 2 ^ 32 := by
  induction n with
  | zero => exact h
  | succ n ih =>
    rw [loop_head, report_state]
    exact state_good_trial compress len _ ih

/-- With a zero seed the initial buffer is seven bytes `0x21` and the
terminator, and the generator stays at 0. -/
theorem zero_seed_init (compress : Compress) (clock : Nat → Int) (pfx : List Nat) (pid : Int)
    (hash0 : Hash) (lz0 : Nat) (h : (pid % 2 ^ 32).toNat = 0) :
    (search_init compress clock pfx pid hash0 lz0).suffix
        = [0x21, 0x21, 0x21, 0x21, 0x21, 0x21, 0x21, 0] ∧
      (search_init compress clock pfx pid hash0 lz0).state = 0 := by
  simp only [search_init, h]
  rw [init_suffix_eq]
  decide

/-- A trial from generator state 0 rewrites byte 0 with `0x21`. -/
theorem zero_seed_trial (compress : Compress) (len : Nat) (s : Search)
    (h : s.suffix = [0x21, 0x21, 0x21, 0x21, 0x21, 0x21, 0x21, 0] ∧ s.state = 0) :
    (trial compress len s).suffix = [0x21, 0x21, 0x21, 0x21, 0x21, 0x21, 0x21, 0] ∧
      (trial compress len s).state = 0 := by
  show (mutate s).suffix = _ ∧ (mutate s).state = 0
  simp only [mutate, h.1, h.2]
  decide

/-- With a zero seed the buffer is the same at the head of every iteration. -/
theorem zero_seed_loop_head (compress : Compress) (clock : Nat → Int) (len : Nat) (s : Search)
    (h : s.suffix = [0x21, 0x21, 0x21, 0x21, 0x21, 0x21, 0x21, 0] ∧ s.state = 0) (n : Nat) :
    (loop_head compress clock len n s).suffix = [0x21, 0x21, 0x21, 0x21, 0x21, 0x21, 0x21, 0] ∧
      (loop_head compress clock len n s).state = 0 := by
  induction n with
  | zero => exact h
  | succ n ih =>
    rw [loop_head, report_suffix, report_state]
    exact zero_seed_trial compress len _ ih

/-! ## The difficulty check of `main` -/

/-- The bytes left after the sign are bytes of the string. -/
theorem mem_skip_sign (t : List Nat) (x : Nat) (hx : x ∈ skip_sign t) : x ∈ t := by
  cases t with
  | nil => simp [skip_sign] at hx
  | cons c t =>
    simp only [skip_sign] at hx
    split at hx
    · exact List.mem_cons_of_mem _ hx
    · exact hx

/-- A pointer into a C string refers to the terminator only at its end. -/
theorem headD_ne_zero (l : List Nat) (h : ∀ b ∈ l, b ≠ 0) (hh : l.headD 0 = 0) : l = [] := by
  cases l with
  | nil => rfl
  | cons c t => exact absurd hh (h c (by simp))

/-- When `strtol` finds no digit, it converts nothing. -/
theorem strtol_no_digits (einval : Bool) (arg : List Nat)
    (hd : List.takeWhile isdigit (skip_sign (List.dropWhile isspace arg)) = []) :
    strtol einval arg = { value := 0, endptr := arg, errno := if einval then EINVAL else 0 } := by
  unfold strtol
  simp only [hd, if_true]

/-- When `strtol` finds digits, `endptr` is what follows them, and `errno`
stays 0 only if the value fits a `long`. -/
theorem strtol_digits (einval : Bool) (arg : List Nat)
    (hd : List.takeWhile isdigit (skip_sign (List.dropWhile isspace arg)) ≠ []) :
    (strtol einval arg).endptr
        = List.dropWhile isdigit (skip_sign (List.dropWhile isspace arg)) ∧
    ((strtol einval arg).errno = 0 →
      LONG_MIN ≤ (if (List.dropWhile isspace arg).head? = some 0x2D then
          -decimal_value (List.takeWhile isdigit (skip_sign (List.dropWhile isspace arg)))
        else decimal_value (List.takeWhile isdigit (skip_sign (List.dropWhile isspace arg)))) ∧
      (if (List.dropWhile isspace arg).head? = some 0x2D then
          -decimal_value (List.takeWhile isdigit (skip_sign (List.dropWhile isspace arg)))
        else decimal_value (List.takeWhile isdigit (skip_sign (List.dropWhile isspace arg))))
        ≤ LONG_MAX) := by
  unfold strtol
  simp only [if_neg hd, decide_eq_true_eq]
  generalize (if (List.dropWhile isspace arg).head? = some 0x2D then
      -decimal_value (List.takeWhile isdigit (skip_sign (List.dropWhile isspace arg)))
    else decimal_value (List.takeWhile isdigit (skip_sign (List.dropWhile isspace arg)))) = v
  by_cases h1 : v > LONG_MAX
  · simp [h1, ERANGE]
  · by_cases h2 : v < LONG_MIN
    · simp [h1, h2, ERANGE]
    · simp only [if_neg h1, if_neg h2, true_and]
      intro _
      exact ⟨not_lt.mp h2, not_lt.mp h1⟩

/-- A non-empty C string that is not a base-10 integer fails the test of
line 70, whichever way `strtol` treats `errno` when it converts nothing. -/
theorem strtol_rejects (einval : Bool) (arg : List Nat) (hc : CString arg) (hne : arg ≠ [])
    (hbad : is_base10_integer arg = false) :
    (strtol einval arg).errno ≠ 0 ∨ (strtol einval arg).endptr.headD 0 ≠ 0 := by
  have hnz : ∀ b ∈ arg, b ≠ 0 := fun b hb => by have := (hc b hb).1; omega
  by_contra hcon
  push_neg at hcon
  obtain ⟨he, hp⟩ := hcon
  by_cases hd : List.takeWhile isdigit (skip_sign (List.dropWhile isspace arg)) = []
  · rw [strtol_no_digits einval arg hd] at hp
    exact hne (headD_ne_zero arg hnz hp)
  · obtain ⟨e1, e2⟩ := strtol_digits einval arg hd
    rw [e1] at hp
    have hmem : ∀ b ∈ List.dropWhile isdigit (skip_sign (List.dropWhile isspace arg)),
        b ≠ 0 := by
      intro b hb
      apply hnz
      have h3 := (List.dropWhile_sublist isdigit).subset hb
      have h4 := mem_skip_sign _ _ h3
      exact (List.dropWhile_sublist isspace).subset h4
    have hnil := headD_ne_zero _ hmem hp
    have hall : ∀ x ∈ skip_sign (List.dropWhile isspace arg), isdigit x = true :=
      List.dropWhile_eq_nil_iff.mp hnil
    have htw : List.takeWhile isdigit (skip_sign (List.dropWhile isspace arg))
        = skip_sign (List.dropWhile isspace arg) := List.takeWhile_eq_self_iff.mpr hall
    have hr := e2 he
    rw [htw] at hd hr
    have : is_base10_integer arg = true := by
      simp only [is_base10_integer, Bool.and_eq_true, decide_eq_true_eq, List.all_eq_true]
      exact ⟨⟨⟨hd, hall⟩, hr.1⟩, hr.2⟩
    rw [this] at hbad
    exact Bool.noConfusion hbad

/-- A base-10 integer passes the test of line 70 and `strtol` returns its
value. -/
theorem strtol_accepts (einval : Bool) (arg : List Nat) (hgood : is_base10_integer arg = true) :
    (strtol einval arg).errno = 0 ∧ (strtol einval arg).endptr = [] := by
  simp only [is_base10_integer, Bool.and_eq_true, decide_eq_true_eq, List.all_eq_true] at hgood
  obtain ⟨⟨⟨hd, hall⟩, hlo⟩, hhi⟩ := hgood
  have htw : List.takeWhile isdigit (skip_sign (List.dropWhile isspace arg))
      = skip_sign (List.dropWhile isspace arg) := List.takeWhile_eq_self_iff.mpr hall
  have hdw : List.dropWhile isdigit (skip_sign (List.dropWhile isspace arg)) = [] :=
    List.dropWhile_eq_nil_iff.mpr hall
  unfold strtol
  simp only [htw, if_neg hd, hdw, decide_eq_true_eq, gt_iff_lt, if_neg (not_lt.mpr hhi),
    if_neg (not_lt.mpr hlo), and_self]

/-- A failed difficulty check ends `main` with a failure status. -/
theorem main_difficulty_rejected (compress : Compress) (clock : Nat → Int)
    (einval malloc_ok : Bool) (pid : Int) (hash0 : Hash) (lz0 : Nat) (argv : List (List Nat))
    (fuel : Nat) (hargc : argv.length = 3)
    (hbad : (strtol einval (argv.getD 2 [])).errno ≠ 0 ∨
      (strtol einval (argv.getD 2 [])).endptr.headD 0 ≠ 0) :
    main compress clock einval malloc_ok pid hash0 lz0 argv fuel =
      some { status := EXIT_FAILURE, stdout := [], stderr := [Diag.difficulty_not_a_number],
             search := none } := by
  unfold main
  simp only [hargc, ne_eq, not_true_eq_false, if_false]
  rw [if_pos hbad]

/-- A prefix of the wrong length ends `main` with a failure status. -/
theorem main_prefix_rejected (compress : Compress) (clock : Nat → Int)
    (einval malloc_ok : Bool) (pid : Int) (hash0 : Hash) (lz0 : Nat) (argv : List (List Nat))
    (fuel : Nat) (hargc : argv.length = 3)
    (hok : ¬ ((strtol einval (argv.getD 2 [])).errno ≠ 0 ∨
      (strtol einval (argv.getD 2 [])).endptr.headD 0 ≠ 0))
    (hlen : (argv.getD 1 []).length ≠ 64) :
    main compress clock einval malloc_ok pid hash0 lz0 argv fuel =
      some { status := EXIT_FAILURE, stdout := [], stderr := [Diag.prefix_length],
             search := none } := by
  unfold main
  simp only [hargc, ne_eq, not_true_eq_false, if_false]
  rw [if_neg hok, if_pos hlen]

/-- With valid arguments and a buffer allocated, `main` is the search followed
by the output of lines 135-137. -/
theorem main_searches (compress : Compress) (clock : Nat → Int)
    (einval : Bool) (pid : Int) (hash0 : Hash) (lz0 : Nat) (argv : List (List Nat))
    (fuel : Nat) (hargc : argv.length = 3)
    (hok : ¬ ((strtol einval (argv.getD 2 [])).errno ≠ 0 ∨
      (strtol einval (argv.getD 2 [])).endptr.headD 0 ≠ 0))
    (hlen : (argv.getD 1 []).length = 64) :
    main compress clock einval true pid hash0 lz0 argv fuel =
      (search compress clock (argv.getD 1 []) (strtol einval (argv.getD 2 [])).value pid hash0
        lz0 fuel).map (fun s =>
          { status := EXIT_SUCCESS, stdout := printed_suffix s ++ [0x0A],
            stderr := s.reports.map (fun r => Diag.hashrate r.1 r.2) ++
              [Diag.full_string (argv.getD 1 [] ++ printed_suffix s), Diag.hash s.hash],
            search := some s }) := by
  unfold main
  simp only [hargc, ne_eq, not_true_eq_false, if_false]
  rw [if_neg hok, if_neg (not_not.mpr hlen)]
  simp only [Bool.true_eq_false, if_false]
  cases search compress clock (argv.getD 1 []) (strtol einval (argv.getD 2 [])).value pid hash0
    lz0 fuel <;> rfl

/-- A non-empty difficulty argument that is not a base-10 integer makes `main`
exit with a failure status before the search. -/
theorem main_rejects_malformed_difficulty (compress : Compress) (clock : Nat → Int)
    (einval malloc_ok : Bool) (pid : Int) (hash0 : Hash) (lz0 : Nat) (argv : List (List Nat))
    (fuel : Nat) (hargc : argv.length = 3) (hc : CString (argv.getD 2 []))
    (hne : argv.getD 2 [] ≠ []) (hbad : is_base10_integer (argv.getD 2 []) = false) :
    main compress clock einval malloc_ok pid hash0 lz0 argv fuel =
      some { status := EXIT_FAILURE, stdout := [], stderr := [Diag.difficulty_not_a_number],
             search := none } :=
  main_difficulty_rejected compress clock einval malloc_ok pid hash0 lz0 argv fuel hargc
    (strtol_rejects einval _ hc hne hbad)

/-- When `strtol` reports `EINVAL` for a string without digits, the empty
difficulty argument is rejected as well. -/
theorem main_rejects_empty_difficulty_einval (compress : Compress) (clock : Nat → Int)
    (malloc_ok : Bool) (pid : Int) (hash0 : Hash) (lz0 : Nat) (prog pfx : List Nat)
    (fuel : Nat) :
    main compress clock true malloc_ok pid hash0 lz0 [prog, pfx, []] fuel =
      some { status := EXIT_FAILURE, stdout := [], stderr := [Diag.difficulty_not_a_number],
             search := none } :=
  main_difficulty_rejected compress clock true malloc_ok pid hash0 lz0 _ fuel rfl
    (Or.inl (by show (strtol true []).errno ≠ 0; decide))

/-- With a difficulty of at most 0 the search stops at its first trial. -/
theorem search_nonpos (compress : Compress) (clock : Nat → Int) (pfx : List Nat)
    (difficulty pid : Int) (hash0 : Hash) (lz0 fuel : Nat) (hd : difficulty ≤ 0) :
    search compress clock pfx difficulty pid hash0 lz0 (fuel + 1)
      = some (trial compress pfx.length (search_init compress clock pfx pid hash0 lz0)) := by
  unfold search
  rw [search_loop]
  simp only [found_nonpos difficulty hd, if_true]

/-- The mutation changes no position other than the chosen one. -/
theorem mutate_frame (s : Search) (i : Nat) (hi : i ≠ xorshift32 s.state % SUFFIX_LEN) :
    (mutate s).suffix[i]? = s.suffix[i]? := by
  show (s.suffix.set _ _)[i]? = _
  exact List.getElem?_set_ne (Ne.symm hi)

/-- The byte stored by the mutation, without the truncation. -/
theorem suffix_byte_eq (r : Nat) : suffix_byte r = 0x21 + r % charset_size := by
  have h : r % 93 < 93 := Nat.mod_lt _ (by decide)
  simp only [suffix_byte, charset_size, ASCII_MIN, ASCII_MAX]
  norm_num
  omega

/-- The mutation stores its byte at the chosen position of an 8-byte buffer. -/
theorem mutate_target (s : Search) (hlen : s.suffix.length = SUFFIX_LEN + 1) :
    (mutate s).suffix[xorshift32 s.state % SUFFIX_LEN]?
      = some (0x21 + xorshift32 (xorshift32 s.state) % charset_size) := by
  have hlt : xorshift32 s.state % SUFFIX_LEN < s.suffix.length := by
    rw [hlen]; exact lt_trans (Nat.mod_lt _ (by decide)) (by decide)
  show (s.suffix.set _ _)[_]? = _
  rw [List.getElem?_set_self hlt, suffix_byte_eq]

/-- A successful run of `main` went through the search and printed the suffix
of the final state followed by a newline. -/
theorem main_success (compress : Compress) (clock : Nat → Int) (einval malloc_ok : Bool)
    (pid : Int) (hash0 : Hash) (lz0 : Nat) (argv : List (List Nat)) (fuel : Nat) (o : Outcome)
    (ho : main compress clock einval malloc_ok pid hash0 lz0 argv fuel = some o)
    (hs : o.status = EXIT_SUCCESS) :
    ∃ r, search compress clock (argv.getD 1 []) (strtol einval (argv.getD 2 [])).value pid hash0
        lz0 fuel = some r ∧ o.search = some r ∧ o.stdout = printed_suffix r ++ [0x0A] := by
  unfold main at ho
  split at ho
  · cases ho; exact absurd hs (by simp [EXIT_FAILURE, EXIT_SUCCESS])
  · simp only at ho
    split at ho
    · cases ho; exact absurd hs (by simp [EXIT_FAILURE, EXIT_SUCCESS])
    · split at ho
      · cases ho; exact absurd hs (by simp [EXIT_FAILURE, EXIT_SUCCESS])
      · split at ho
        · cases ho; exact absurd hs (by simp [EXIT_FAILURE, EXIT_SUCCESS])
        · split at ho
          · exact absurd ho (by simp)
          · rename_i r hr
            cases ho
            exact ⟨r, hr, rfl, rfl⟩

/-! ## The claims on argument checks, padding, frames and the generator -/

/-- C11: for every invocation with two arguments whose prefix argument is not
exactly 64 bytes long, `main` exits with a failure status, without setting up
the search (no trial is made) and with nothing written to standard output. -/
theorem main_rejects_prefix_length (compress : Compress) (clock : Nat → Int)
    (einval malloc_ok : Bool) (pid : Int) (hash0 : Hash) (lz0 : Nat) (argv : List (List Nat))
    (fuel : Nat) (hargc : argv.length = 3) (hlen : (argv.getD 1 []).length ≠ 64) :
    ∃ o, main compress clock einval malloc_ok pid hash0 lz0 argv fuel = some o ∧
      o.status = EXIT_FAILURE ∧ o.status ≠ EXIT_SUCCESS ∧ o.search = none ∧ o.stdout = [] := by
  by_cases hbad : (strtol einval (argv.getD 2 [])).errno ≠ 0 ∨
      (strtol einval (argv.getD 2 [])).endptr.headD 0 ≠ 0
  · exact ⟨_, main_difficulty_rejected compress clock einval malloc_ok pid hash0 lz0 argv fuel
      hargc hbad, rfl, by decide, rfl, rfl⟩
  · exact ⟨_, main_prefix_rejected compress clock einval malloc_ok pid hash0 lz0 argv fuel
      hargc hbad hlen, rfl, by decide, rfl, rfl⟩

/-- Witness for C11: the invocation `sha1-pow abc 2`. -/
theorem main_rejects_prefix_length_witness :
    ([[0x73, 0x68, 0x61, 0x31, 0x2D, 0x70, 0x6F, 0x77], [0x61, 0x62, 0x63], [0x32]] :
      List (List Nat)).length = 3 ∧
    (([[0x73, 0x68, 0x61, 0x31, 0x2D, 0x70, 0x6F, 0x77], [0x61, 0x62, 0x63], [0x32]] :
      List (List Nat)).getD 1 []).length ≠ 64 ∧
    main sha1_compress_std sample_clock false true 113 ⟨1, 2, 3, 4, 5⟩ 9
        [[0x73, 0x68, 0x61, 0x31, 0x2D, 0x70, 0x6F, 0x77], [0x61, 0x62, 0x63], [0x32]] 5
      = some { status := 1, stdout := [], stderr := [Diag.prefix_length], search := none } ∧
    ∃ o, main sha1_compress_std sample_clock false true 113 ⟨1, 2, 3, 4, 5⟩ 9
        [[0x73, 0x68, 0x61, 0x31, 0x2D, 0x70, 0x6F, 0x77], [0x61, 0x62, 0x63], [0x32]] 5 = some o ∧
      o.status = EXIT_FAILURE ∧ o.status ≠ EXIT_SUCCESS ∧ o.search = none ∧ o.stdout = [] :=
  ⟨by decide, by decide, by decide,
    main_rejects_prefix_length sha1_compress_std sample_clock false true 113 ⟨1, 2, 3, 4, 5⟩ 9
      [[0x73, 0x68, 0x61, 0x31, 0x2D, 0x70, 0x6F, 0x77], [0x61, 0x62, 0x63], [0x32]] 5
      (by decide) (by decide)⟩

/-- C12, as the code behaves with a `strtol` that leaves `errno` alone when it
converts nothing (ISO C, glibc): the empty string is not a base-10 integer,
yet for every 64-byte prefix `main` accepts it as difficulty 0, runs the
search, which stops at its first trial, prints the suffix and exits with
`EXIT_SUCCESS`. -/
theorem main_accepts_empty_difficulty (compress : Compress) (clock : Nat → Int) (pid : Int)
    (hash0 : Hash) (lz0 : Nat) (prog pfx : List Nat) (fuel : Nat) (hp : pfx.length = 64) :
    is_base10_integer [] = false ∧
    strtol false [] = { value := 0, endptr := [], errno := 0 } ∧
    ∃ o, main compress clock false true pid hash0 lz0 [prog, pfx, []] (fuel + 1) = some o ∧
      o.status = EXIT_SUCCESS ∧
      o.search = some (trial compress 64 (search_init compress clock pfx pid hash0 lz0)) ∧
      o.stdout
        = printed_suffix (trial compress 64 (search_init compress clock pfx pid hash0 lz0))
          ++ [0x0A] := by
  refine ⟨by decide, by decide, ?_⟩
  have hok : ¬ ((strtol false (([prog, pfx, []] : List (List Nat)).getD 2 [])).errno ≠ 0 ∨
      (strtol false (([prog, pfx, []] : List (List Nat)).getD 2 [])).endptr.headD 0 ≠ 0) := by
    show ¬ ((strtol false []).errno ≠ 0 ∨ (strtol false []).endptr.headD 0 ≠ 0)
    decide
  have hm := main_searches compress clock false pid hash0 lz0 [prog, pfx, []] (fuel + 1) rfl hok hp
  have hv : (strtol false (([prog, pfx, []] : List (List Nat)).getD 2 [])).value = 0 := by
    show (strtol false []).value = 0
    decide
  rw [hv] at hm
  have hs := search_nonpos compress clock pfx 0 pid hash0 lz0 fuel (le_refl 0)
  rw [hp] at hs
  have hpfx : ([prog, pfx, []] : List (List Nat)).getD 1 [] = pfx := rfl
  rw [hpfx, hs] at hm
  exact ⟨_, hm, rfl, rfl, rfl⟩

/-- Witness for C12: the invocation `sha1-pow aaaa...a ""` (64 letters `a`, an
empty difficulty argument) by process 113 prints the suffix `h7m+:8l` and
exits with status 0 after one trial. -/
theorem main_accepts_empty_difficulty_witness :
    letters_a64.length = 64 ∧
    main sha1_compress_std sample_clock false true 113 ⟨1, 2, 3, 4, 5⟩ 9
        [[0x73, 0x68, 0x61, 0x31, 0x2D, 0x70, 0x6F, 0x77], letters_a64, []] 1
      = some { status := 0,
               stdout := [0x68, 0x37, 0x6D, 0x2B, 0x3A, 0x38, 0x6C, 0x0A],
               stderr := [Diag.full_string (letters_a64 ++ [0x68, 0x37, 0x6D, 0x2B, 0x3A, 0x38, 0x6C]),
                 Diag.hash ⟨1368176847, 1388113269, 2802352415, 2961378111, 2135743517⟩],
               search := some
                 { suffix := [104, 55, 109, 43, 58, 56, 108, 0],
                   hash := ⟨1368176847, 1388113269, 2802352415, 2961378111, 2135743517⟩,
                   hash_fb := ⟨3662244075, 775388191, 2286849874, 2203208683, 3880697277⟩,
                   state := 3830423575, lz := 0, counter := 1, start_time := 0, clocks := 1,
                   reports := [] } } ∧
    (is_base10_integer [] = false ∧
     strtol false [] = { value := 0, endptr := [], errno := 0 } ∧
     ∃ o, main sha1_compress_std sample_clock false true 113 ⟨1, 2, 3, 4, 5⟩ 9
         [[0x73, 0x68, 0x61, 0x31, 0x2D, 0x70, 0x6F, 0x77], letters_a64, []] (0 + 1) = some o ∧
       o.status = EXIT_SUCCESS ∧
       o.search = some (trial sha1_compress_std 64
         (search_init sha1_compress_std sample_clock letters_a64 113 ⟨1, 2, 3, 4, 5⟩ 9)) ∧
       o.stdout = printed_suffix (trial sha1_compress_std 64
         (search_init sha1_compress_std sample_clock letters_a64 113 ⟨1, 2, 3, 4, 5⟩ 9))
           ++ [0x0A]) :=
  ⟨by decide, by decide,
    main_accepts_empty_difficulty sha1_compress_std sample_clock 113 ⟨1, 2, 3, 4, 5⟩ 9
      [0x73, 0x68, 0x61, 0x31, 0x2D, 0x70, 0x6F, 0x77] letters_a64 0 (by decide)⟩

/-- C13: for every suffix length `n ≤ 63`, `sha1_add_suffix` makes two calls of
the compression primitive exactly when `64 - (n + 1) < 8`, that is `n ≥ 56`,
and one call otherwise.  With one call the block is the `n` suffix bytes, the
marker `0x80`, zeros and the 8-byte length field; with two calls the first
block is the suffix bytes, the marker and zeros up to the end of the block,
and the second is 56 zero bytes followed by the length field. -/
theorem add_suffix_compress_calls (compress : Compress) (suffix : List Nat) (len n : Nat)
    (e : Engine) (hn : n ≤ 63) (hs : n ≤ suffix.length) :
    ((sha1_add_suffix compress suffix len n e).calls.length = e.calls.length + 2
      ↔ BLOCK_LEN - (n + 1) < LENGTH_SIZE) ∧
    (BLOCK_LEN - (n + 1) < LENGTH_SIZE ↔ 56 ≤ n) ∧
    ((sha1_add_suffix compress suffix len n e).calls.length = e.calls.length + 1 ↔ n < 56) ∧
    (n < 56 →
      (sha1_add_suffix compress suffix len n e).calls = e.calls ++
        [suffix.take n ++ [0x80] ++ List.replicate (55 - n) 0 ++ be64 (8 * len % 2 ^ 64)] ∧
      (sha1_add_suffix compress suffix len n e).hash = compress e.hash
        (suffix.take n ++ [0x80] ++ List.replicate (55 - n) 0 ++ be64 (8 * len % 2 ^ 64))) ∧
    (56 ≤ n →
      (sha1_add_suffix compress suffix len n e).calls = e.calls ++
        [suffix.take n ++ [0x80] ++ List.replicate (63 - n) 0,
         List.replicate 56 0 ++ be64 (8 * len % 2 ^ 64)] ∧
      (sha1_add_suffix compress suffix len n e).hash = compress
        (compress e.hash (suffix.take n ++ [0x80] ++ List.replicate (63 - n) 0))
        (List.replicate 56 0 ++ be64 (8 * len % 2 ^ 64))) := by
  have hcond : BLOCK_LEN - (n + 1) < LENGTH_SIZE ↔ 56 ≤ n := by
    simp only [BLOCK_LEN, LENGTH_SIZE]; omega
  by_cases h : n < 56
  · have h1 := add_suffix_one_call compress suffix len n e h hs
    have hc : (sha1_add_suffix compress suffix len n e).calls.length = e.calls.length + 1 := by
      rw [h1]; simp [call_compress]
    refine ⟨?_, hcond, ?_, ?_, ?_⟩
    · rw [hcond, hc]; omega
    · rw [hc]; simp only [true_iff]; exact h
    · intro _; rw [h1]; exact ⟨rfl, rfl⟩
    · intro hh; omega
  · have h2 := add_suffix_two_calls compress suffix len n e (by omega) hn hs
    have hc : (sha1_add_suffix compress suffix len n e).calls.length = e.calls.length + 2 := by
      rw [h2]; simp [call_compress]
    refine ⟨?_, hcond, ?_, ?_, ?_⟩
    · rw [hcond, hc]; simp only [true_iff]; omega
    · rw [hc]; constructor
      · intro hh; omega
      · intro hh; exact absurd hh h
    · intro hh; exact absurd hh h
    · intro _; rw [h2]; exact ⟨by simp [call_compress], rfl⟩

/-- Witness for C13: a 60-byte suffix of letters `b` after a 64-byte prefix
(`len = 124`) needs two calls; the second block ends with the bit length
`992 = 0x03E0`. -/
theorem add_suffix_compress_calls_witness :
    (60 ≤ 63 ∧ 60 ≤ (List.replicate 60 0x62).length) ∧
    (sha1_add_suffix sha1_compress_std (List.replicate 60 0x62) 124 60
        { hash := sha1_init, calls := [] }).calls =
      [List.replicate 60 0x62 ++ [0x80, 0, 0, 0],
       List.replicate 56 0 ++ [0, 0, 0, 0, 0, 0, 0x03, 0xE0]] ∧
    (sha1_add_suffix sha1_compress_std [0x68, 0x37, 0x3D, 0x2B, 0x3A, 0x4C, 0x6C, 0] 71 7
        { hash := sha1_init, calls := [] }).calls =
      [[0x68, 0x37, 0x3D, 0x2B, 0x3A, 0x4C, 0x6C, 0x80] ++ List.replicate 48 0 ++
        [0, 0, 0, 0, 0, 0, 0x02, 0x38]] ∧
    ((sha1_add_suffix sha1_compress_std (List.replicate 60 0x62) 124 60
        { hash := sha1_init, calls := [] }).calls.length
      = ({ hash := sha1_init, calls := [] } : Engine).calls.length + 2
      ↔ BLOCK_LEN - (60 + 1) < LENGTH_SIZE) :=
  ⟨⟨by decide, by decide⟩, by decide, by decide,
    (add_suffix_compress_calls sha1_compress_std (List.replicate 60 0x62) 124 60
      { hash := sha1_init, calls := [] } (by decide) (by decide)).1⟩

/-- C14: for every total message length `len` of a 64-bit `size_t`, the last
8 bytes of the terminal block built by `sha1_add_suffix`, read as a
big-endian integer with the least significant byte at index 63, are the bit
length `8 * len` modulo `2^64`, which is `8 * len` itself when `len < 2^61`;
for `len = 71` the field is 568. -/
theorem length_field_is_bit_length (compress : Compress) (suffix : List Nat) (len n : Nat)
    (e : Engine) (hlen : len < 2 ^ 64) (hn : n ≤ 63) (hs : n ≤ suffix.length) :
    (sha1_add_suffix compress suffix len n e).terminal_block.length = 64 ∧
    be_value ((sha1_add_suffix compress suffix len n e).terminal_block.drop 56)
      = 8 * len % 2 ^ 64 ∧
    (len < 2 ^ 61 →
      be_value ((sha1_add_suffix compress suffix len n e).terminal_block.drop 56) = 8 * len) ∧
    (len = 71 →
      be_value ((sha1_add_suffix compress suffix len n e).terminal_block.drop 56) = 568) ∧
    (sha1_add_suffix compress suffix len n e).terminal_block.getD 63 0 = 8 * len % 256 := by
  obtain ⟨pre, hpre, hb⟩ := add_suffix_terminal compress suffix len n e hn hs
  have hlt : 8 * len % 2 ^ 64 < 2 ^ 64 := Nat.mod_lt _ (by positivity)
  have hv : be_value ((sha1_add_suffix compress suffix len n e).terminal_block.drop 56)
      = 8 * len % 2 ^ 64 := by
    rw [hb, List.drop_left' hpre, be_value_be64 _ hlt]
  refine ⟨by rw [hb]; simp [hpre, be64], hv, ?_, ?_, ?_⟩
  · intro h61
    rw [hv]
    norm_num at h61 ⊢
    omega
  · intro h71
    rw [hv, h71]
    norm_num
  · rw [hb, List.getD_eq_getElem?_getD, List.getElem?_append_right (by omega), hpre]
    simp only [be64]
    norm_num

/-- Witness for C14: the configuration of `main`, a 7-byte suffix with
`len = 71`: the last two bytes of the block are `0x02 0x38`, that is 568. -/
theorem length_field_is_bit_length_witness :
    ((71 : Nat) < 2 ^ 64 ∧ 7 ≤ 63 ∧
      7 ≤ ([0x68, 0x37, 0x3D, 0x2B, 0x3A, 0x4C, 0x6C, 0] : List Nat).length) ∧
    (sha1_add_suffix sha1_compress_std [0x68, 0x37, 0x3D, 0x2B, 0x3A, 0x4C, 0x6C, 0] 71 7
        { hash := sha1_init, calls := [] }).terminal_block.drop 56
      = [0, 0, 0, 0, 0, 0, 0x02, 0x38] ∧
    be_value ((sha1_add_suffix sha1_compress_std [0x68, 0x37, 0x3D, 0x2B, 0x3A, 0x4C, 0x6C, 0]
        71 7 { hash := sha1_init, calls := [] }).terminal_block.drop 56) = 568 :=
  ⟨⟨by decide, by decide, by decide⟩, by decide,
    (length_field_is_bit_length sha1_compress_std [0x68, 0x37, 0x3D, 0x2B, 0x3A, 0x4C, 0x6C, 0]
      71 7 { hash := sha1_init, calls := [] } (by decide) (by decide) (by decide)).2.2.2.1 rfl⟩

/-- C15: at the head of every iteration and after every trial, `hash_fb` is
still the state that `sha1_first_block` returned; the digest of a trial is
`sha1_add_suffix` applied to a copy of `hash_fb` and the current suffix, so it
is the same whatever working state and score earlier trials left, and two
trials with the same `hash_fb` and the same suffix give the same digest. -/
theorem trial_digest_from_hash_fb (compress : Compress) (clock : Nat → Int) (pfx : List Nat)
    (pid : Int) (hash0 : Hash) (lz0 : Nat) (len : Nat) :
    (∀ n, (loop_head compress clock len n (search_init compress clock pfx pid hash0 lz0)).hash_fb
        = (sha1_first_block compress pfx pfx.length).hash ∧
      (trial compress len (loop_head compress clock len n
        (search_init compress clock pfx pid hash0 lz0))).hash_fb
        = (sha1_first_block compress pfx pfx.length).hash) ∧
    (∀ s : Search, (trial compress len s).hash =
      (sha1_add_suffix compress (trial compress len s).suffix (len + SUFFIX_LEN) SUFFIX_LEN
        { hash := s.hash_fb, calls := [] }).hash) ∧
    (∀ (s : Search) (h : Hash) (lz : Nat),
      (trial compress len { s with hash := h, lz := lz }).hash = (trial compress len s).hash ∧
      (trial compress len { s with hash := h, lz := lz }).suffix
        = (trial compress len s).suffix) ∧
    (∀ s t : Search, s.hash_fb = t.hash_fb →
      (trial compress len s).suffix = (trial compress len t).suffix →
      (trial compress len s).hash = (trial compress len t).hash) := by
  refine ⟨?_, fun s => rfl, fun s h lz => ⟨rfl, rfl⟩, ?_⟩
  · intro n
    have h := loop_head_hash_fb compress clock len
      (search_init compress clock pfx pid hash0 lz0) n
    exact ⟨h, by rw [trial_hash_fb, h]; rfl⟩
  · intro s t hfb hsuf
    rw [trial_hash, trial_hash, hfb, hsuf]

/-- Witness for C15: process 113 on the prefix of 64 letters `a`; after three
unsuccessful trials `hash_fb` is unchanged, and the fourth trial gives the
same digest from two states that differ in the working state and the score. -/
theorem trial_digest_from_hash_fb_witness :
    (loop_head sha1_compress_std sample_clock 64 3
        (search_init sha1_compress_std sample_clock letters_a64 113 ⟨1, 2, 3, 4, 5⟩ 9)).hash_fb
      = ⟨3662244075, 775388191, 2286849874, 2203208683, 3880697277⟩ ∧
    (sha1_first_block sha1_compress_std letters_a64 letters_a64.length).hash
      = ⟨3662244075, 775388191, 2286849874, 2203208683, 3880697277⟩ ∧
    (trial sha1_compress_std 64 (loop_head sha1_compress_std sample_clock 64 3
        (search_init sha1_compress_std sample_clock letters_a64 113 ⟨1, 2, 3, 4, 5⟩ 9))).hash
      = (trial sha1_compress_std 64 (loop_head sha1_compress_std frozen_clock 64 3
        (search_init sha1_compress_std frozen_clock letters_a64 113 ⟨0, 0, 0, 0, 0⟩ 0))).hash :=
  ⟨by decide, by decide,
    (trial_digest_from_hash_fb sha1_compress_std sample_clock letters_a64 113 ⟨1, 2, 3, 4, 5⟩ 9
      64).2.2.2 _ _ (by decide) (by decide)⟩

/-- C16: the mutation step of a trial changes the 8-byte suffix buffer in at
most one position: every index other than `rand % 7` keeps its byte, and the
byte at `rand % 7` becomes `0x21 + r % charset_size`, where `rand` and `r` are
the next two generator outputs. -/
theorem mutation_single_byte (compress : Compress) (len : Nat) (s : Search)
    (hlen : s.suffix.length = SUFFIX_LEN + 1) :
    (∀ i, i ≠ xorshift32 s.state % SUFFIX_LEN →
      (mutate s).suffix[i]? = s.suffix[i]? ∧ (trial compress len s).suffix[i]? = s.suffix[i]?) ∧
    (mutate s).suffix[xorshift32 s.state % SUFFIX_LEN]?
      = some (0x21 + xorshift32 (xorshift32 s.state) % charset_size) ∧
    (trial compress len s).suffix[xorshift32 s.state % SUFFIX_LEN]?
      = some (0x21 + xorshift32 (xorshift32 s.state) % charset_size) ∧
    (trial compress len s).suffix.length = SUFFIX_LEN + 1 ∧
    (trial compress len s).state = xorshift32 (xorshift32 s.state) :=
  ⟨fun i hi => ⟨mutate_frame s i hi, mutate_frame s i hi⟩, mutate_target s hlen,
    mutate_target s hlen, by
      show (s.suffix.set _ _).length = _
      rw [List.length_set, hlen], rfl⟩

/-- Witness for C16: the first trial of process 113, whose initial buffer is
`h7m+a8l`: the generator returns 962242775 and then 3830423575, so index
`962242775 % 7 = 4` receives `0x21 + 3830423575 % 93 = 0x3A` and the other
bytes stay. -/
theorem mutation_single_byte_witness :
    (search_init sha1_compress_std sample_clock letters_a64 113 ⟨1, 2, 3, 4, 5⟩ 9).suffix
      = [0x68, 0x37, 0x6D, 0x2B, 0x61, 0x38, 0x6C, 0] ∧
    xorshift32 (search_init sha1_compress_std sample_clock letters_a64 113
      ⟨1, 2, 3, 4, 5⟩ 9).state % SUFFIX_LEN = 4 ∧
    (trial sha1_compress_std 64
      (search_init sha1_compress_std sample_clock letters_a64 113 ⟨1, 2, 3, 4, 5⟩ 9)).suffix
      = [0x68, 0x37, 0x6D, 0x2B, 0x3A, 0x38, 0x6C, 0] ∧
    (trial sha1_compress_std 64
      (search_init sha1_compress_std sample_clock letters_a64 113 ⟨1, 2, 3, 4, 5⟩ 9)).suffix[
        xorshift32 (search_init sha1_compress_std sample_clock letters_a64 113
          ⟨1, 2, 3, 4, 5⟩ 9).state % SUFFIX_LEN]?
      = some (0x21 + xorshift32 (xorshift32 (search_init sha1_compress_std sample_clock
          letters_a64 113 ⟨1, 2, 3, 4, 5⟩ 9).state) % charset_size) :=
  ⟨by decide, by decide, by decide,
    (mutation_single_byte sha1_compress_std 64
      (search_init sha1_compress_std sample_clock letters_a64 113 ⟨1, 2, 3, 4, 5⟩ 9)
      (by decide)).2.2.1⟩

/-- C17: `xorshift32` maps every non-zero 32-bit state to a non-zero 32-bit
value (which is also the new state) and maps 0 to 0.  Hence with a non-zero
seed the generator state is non-zero after initialisation, at the head of
every iteration and after every trial, while with a zero seed the suffix is
seven bytes `0x21` after initialisation and after every trial. -/
theorem xorshift32_preserves_nonzero :
    (∀ a, a ≠ 0 → a < 2 ^ 32 → xorshift32 a ≠ 0 ∧ xorshift32 a < 2 ^ 32) ∧
    xorshift32 0 = 0 ∧
    (∀ (compress : Compress) (clock : Nat → Int) (pfx : List Nat) (pid : Int) (hash0 : Hash)
        (lz0 len n : Nat), (pid % 2 ^ 32).toNat ≠ 0 →
      (search_init compress clock pfx pid hash0 lz0).state ≠ 0 ∧
      (loop_head compress clock len n (search_init compress clock pfx pid hash0 lz0)).state ≠ 0 ∧
      xorshift32 (loop_head compress clock len n
        (search_init compress clock pfx pid hash0 lz0)).state ≠ 0 ∧
      (trial compress len (loop_head compress clock len n
        (search_init compress clock pfx pid hash0 lz0))).state ≠ 0) ∧
    (∀ (compress : Compress) (clock : Nat → Int) (pfx : List Nat) (pid : Int) (hash0 : Hash)
        (lz0 len n : Nat), (pid % 2 ^ 32).toNat = 0 →
      (search_init compress clock pfx pid hash0 lz0).suffix
        = [0x21, 0x21, 0x21, 0x21, 0x21, 0x21, 0x21, 0] ∧
      (trial compress len (loop_head compress clock len n
        (search_init compress clock pfx pid hash0 lz0))).suffix
        = [0x21, 0x21, 0x21, 0x21, 0x21, 0x21, 0x21, 0] ∧
      (trial compress len (loop_head compress clock len n
        (search_init compress clock pfx pid hash0 lz0))).state = 0) := by
  refine ⟨fun a ha hlt => ⟨xorshift32_ne_zero a ha hlt, xorshift32_lt a hlt⟩, by decide, ?_, ?_⟩
  · intro compress clock pfx pid hash0 lz0 len n hseed
    have h0 := state_good_init compress clock pfx pid hash0 lz0 hseed
    have hn := state_good_loop_head compress clock len _ h0 n
    exact ⟨h0.1, hn.1, xorshift32_ne_zero _ hn.1 hn.2, (state_good_trial compress len _ hn).1⟩
  · intro compress clock pfx pid hash0 lz0 len n hseed
    have h0 := zero_seed_init compress clock pfx pid hash0 lz0 hseed
    have hn := zero_seed_loop_head compress clock len _ h0 n
    have ht := zero_seed_trial compress len _ hn
    exact ⟨h0.1, ht.1, ht.2⟩

/-- Witness for C17: the state 113 is mapped to 30027446; process 113 has a
non-zero generator state after three trials; with seed 0 the buffer after the
fourth trial is seven bytes `0x21` (the string `!!!!!!!`). -/
theorem xorshift32_preserves_nonzero_witness :
    ((113 : Nat) ≠ 0 ∧ (113 : Nat) < 2 ^ 32 ∧ ((113 : Int) % 2 ^ 32).toNat ≠ 0 ∧
      ((0 : Int) % 2 ^ 32).toNat = 0) ∧
    xorshift32 113 = 30027446 ∧
    (xorshift32 113 ≠ 0 ∧ xorshift32 113 < 2 ^ 32) ∧
    (loop_head sha1_compress_std sample_clock 64 3
      (search_init sha1_compress_std sample_clock letters_a64 113 ⟨1, 2, 3, 4, 5⟩ 9)).state ≠ 0 ∧
    (trial sha1_compress_std 64 (loop_head sha1_compress_std sample_clock 64 3
      (search_init sha1_compress_std sample_clock letters_a64 0 ⟨1, 2, 3, 4, 5⟩ 9))).suffix
      = [0x21, 0x21, 0x21, 0x21, 0x21, 0x21, 0x21, 0] :=
  ⟨⟨by decide, by decide, by decide, by decide⟩, by decide,
    xorshift32_preserves_nonzero.1 113 (by decide) (by decide),
    (xorshift32_preserves_nonzero.2.2.1 sha1_compress_std sample_clock letters_a64 113
      ⟨1, 2, 3, 4, 5⟩ 9 64 3 (by decide)).2.1,
    (xorshift32_preserves_nonzero.2.2.2 sha1_compress_std sample_clock letters_a64 0
      ⟨1, 2, 3, 4, 5⟩ 9 64 3 (by decide)).2.1⟩

/-- C18: the initialisation loop and the mutation write the 8-byte suffix
buffer at indices `0 .. 6` only.  In every state reached (after
initialisation, at the head of every iteration, after every trial) the buffer
has 8 bytes, the byte at index 7 is 0 and no byte at an index `0 .. 6` is 0,
so the string printed is exactly 7 bytes long; in particular that holds for
the state in which the search stops, and a successful run of `main` writes
exactly 7 bytes and a newline to standard output. -/
theorem suffix_string_length (compress : Compress) (clock : Nat → Int) (pfx : List Nat)
    (difficulty pid : Int) (hash0 : Hash) (lz0 len : Nat) :
    (∀ i ∈ List.range SUFFIX_LEN, i ≤ 6) ∧
    (∀ s : Search, xorshift32 s.state % SUFFIX_LEN ≤ 6) ∧
    (∀ (n : Nat) (s : Search),
      s = loop_head compress clock len n (search_init compress clock pfx pid hash0 lz0) ∨
      s = trial compress len (loop_head compress clock len n
        (search_init compress clock pfx pid hash0 lz0)) →
      s.suffix.length = 8 ∧ s.suffix[7]? = some 0 ∧
      (∀ i, i < 7 → s.suffix.getD i 0 ≠ 0) ∧
      printed_suffix s = s.suffix.take 7 ∧ (printed_suffix s).length = 7) ∧
    (∀ (fuel : Nat) (r : Search),
      search compress clock pfx difficulty pid hash0 lz0 fuel = some r →
      r.suffix.length = 8 ∧ r.suffix[7]? = some 0 ∧ (printed_suffix r).length = 7) ∧
    (∀ (einval malloc_ok : Bool) (argv : List (List Nat)) (fuel : Nat) (o : Outcome),
      main compress clock einval malloc_ok pid hash0 lz0 argv fuel = some o →
      o.status = EXIT_SUCCESS → o.stdout.length = 7 + 1 ∧ o.stdout.drop 7 = [0x0A]) := by
  have key : ∀ s : Search, SuffixInv s.suffix →
      s.suffix.length = 8 ∧ s.suffix[7]? = some 0 ∧
      (∀ i, i < 7 → s.suffix.getD i 0 ≠ 0) ∧
      printed_suffix s = s.suffix.take 7 ∧ (printed_suffix s).length = 7 := by
    intro s hs
    obtain ⟨p1, p2, _⟩ := printed_of_inv s hs
    obtain ⟨a, b, c, d, e, f, g, hl, hr⟩ := suffixInv_cases _ hs
    refine ⟨by rw [hl]; rfl, by rw [hl]; rfl, ?_, p1, p2⟩
    intro i hi
    have := hs.2.2 i hi
    simp only [ASCII_MIN] at this
    omega
  have h0 := search_init_inv compress clock pfx pid hash0 lz0
  refine ⟨?_, ?_, ?_, ?_, ?_⟩
  · intro i hi
    simp only [SUFFIX_LEN, List.mem_range] at hi
    omega
  · intro s
    have : xorshift32 s.state % SUFFIX_LEN < 7 := Nat.mod_lt _ (by decide)
    omega
  · intro n s hs
    apply key
    rcases hs with rfl | rfl
    · exact loop_head_inv compress clock len _ h0 n
    · rw [trial_suffix]; exact mutate_inv _ (loop_head_inv compress clock len _ h0 n)
  · intro fuel r hr
    obtain ⟨n, _, hrn, _⟩ := search_loop_some compress clock _ difficulty fuel _ _ hr
    have hinv : SuffixInv r.suffix := by
      rw [hrn, trial_suffix]; exact mutate_inv _ (loop_head_inv compress clock _ _ h0 n)
    obtain ⟨k1, k2, _, _, k5⟩ := key r hinv
    exact ⟨k1, k2, k5⟩
  · intro einval malloc_ok argv fuel o ho hs
    obtain ⟨r, hr, _, hout⟩ := main_success compress clock einval malloc_ok pid hash0 lz0 argv
      fuel o ho hs
    unfold search at hr
    obtain ⟨n, _, hrn, _⟩ := search_loop_some compress clock _ _ fuel _ _ hr
    have hinv : SuffixInv r.suffix := by
      rw [hrn, trial_suffix]
      exact mutate_inv _ (loop_head_inv compress clock _ _
        (search_init_inv compress clock _ pid hash0 lz0) n)
    obtain ⟨_, _, _, _, k5⟩ := key r hinv
    rw [hout]
    exact ⟨by simp [k5], by rw [List.drop_left' k5]⟩

/-- Witness for C18: the search of process 1080559823 on the prefix of 64
letters `a` with difficulty 8 stops at the fifth trial with the buffer
`|YF2Pq>` followed by a zero byte, and prints 7 bytes. -/
theorem suffix_string_length_witness :
    search sha1_compress_std sample_clock letters_a64 8 1080559823 ⟨1, 2, 3, 4, 5⟩ 9 5 =
      some { suffix := [0x7C, 0x59, 0x46, 0x32, 0x50, 0x71, 0x3E, 0],
             hash := ⟨0x00000000, 0x49959d7a, 0x07a03dff, 0xe0a7ba6c, 0xa6ab9776⟩,
             hash_fb := ⟨3662244075, 775388191, 2286849874, 2203208683, 3880697277⟩,
             state := 3679147183, lz := 8, counter := 5, start_time := 0, clocks := 1,
             reports := [] } ∧
    (printed_suffix
      { suffix := [0x7C, 0x59, 0x46, 0x32, 0x50, 0x71, 0x3E, 0],
        hash := ⟨0x00000000, 0x49959d7a, 0x07a03dff, 0xe0a7ba6c, 0xa6ab9776⟩,
        hash_fb := ⟨3662244075, 775388191, 2286849874, 2203208683, 3880697277⟩,
        state := 3679147183, lz := 8, counter := 5, start_time := 0, clocks := 1,
        reports := [] }).length = 7 :=
  ⟨by decide,
    ((suffix_string_length sha1_compress_std sample_clock letters_a64 8 1080559823
      ⟨1, 2, 3, 4, 5⟩ 9 64).2.2.2.1 5 _ (by decide)).2.2⟩

end Sha1Pow
